import Mathlib

/-!
Verification of the round-resolution engine of a social-deduction game
(Town of Salem clone).  The definitions below are a shallow embedding of
the Python sources `roles.py` and `engine.py`:

* `Role`, the role catalogs, `Player`, `GameState` and `Engine` mirror the
  dataclasses and engine fields.
* Players are identified by their index in `GameState.players`; the Python
  code mutates `Player` objects in place and compares them by dataclass
  value equality, which coincides with index identity as long as names are
  distinct (name uniqueness is the documented precondition of the game).
* Randomness is factored out: every call to the random generator in the
  source becomes an explicit parameter (`Choices`), constrained by the
  predicate `ChoicesValid` to the values the source's targeting policies
  can actually return.
* Python string operations (`in`, `split(sep, 1)`, `startswith`) are
  modelled character-list-wise by `strSplitOn`, `pySplitTail` and
  `strStartsWith`, which have exactly the Python semantics on the
  non-empty separators used by the source.
-/

/-- Mirror of `roles.Role` (a frozen dataclass). -/
structure Role where
  name : String
  alignment : String
  faction : String
  investigator_group : String
  fake_claim : String
deriving DecidableEq

/-- Mirror of `roles.TOWN_ROLES`. -/
def TOWN_ROLES : List Role :=
  [ { name := "Jailor", alignment := "Town", faction := "Town",
      investigator_group := "Leader", fake_claim := "Jailor" },
    { name := "Sheriff", alignment := "Town", faction := "Town",
      investigator_group := "Investigator", fake_claim := "Sheriff" },
    { name := "Investigator", alignment := "Town", faction := "Town",
      investigator_group := "Investigator", fake_claim := "Investigator" },
    { name := "Doctor", alignment := "Town", faction := "Town",
      investigator_group := "Protector", fake_claim := "Doctor" },
    { name := "Escort", alignment := "Town", faction := "Town",
      investigator_group := "Escort", fake_claim := "Escort" },
    { name := "Lookout", alignment := "Town", faction := "Town",
      investigator_group := "Watcher", fake_claim := "Lookout" },
    { name := "Townie", alignment := "Town", faction := "Town",
      investigator_group := "Support", fake_claim := "Townie" } ]

/-- Mirror of `roles.MAFIA_ROLES`. -/
def MAFIA_ROLES : List Role :=
  [ { name := "Godfather", alignment := "Mafia", faction := "Mafia",
      investigator_group := "Leader", fake_claim := "Investigator" },
    { name := "Mafioso", alignment := "Mafia", faction := "Mafia",
      investigator_group := "Killing", fake_claim := "Townie" },
    { name := "Consigliere", alignment := "Mafia", faction := "Mafia",
      investigator_group := "Investigator", fake_claim := "Sheriff" },
    { name := "Janitor", alignment := "Mafia", faction := "Mafia",
      investigator_group := "Support", fake_claim := "Doctor" } ]

/-- Mirror of `roles.NEUTRAL_ROLES`. -/
def NEUTRAL_ROLES : List Role :=
  [ { name := "Jester", alignment := "Neutral", faction := "Neutral",
      investigator_group := "Deception", fake_claim := "Townie" },
    { name := "Executioner", alignment := "Neutral", faction := "Neutral",
      investigator_group := "Deception", fake_claim := "Sheriff" } ]

/-- Mirror of `roles.SHERIFF_SUSPICIOUS_ALIGNMENTS`. -/
def SHERIFF_SUSPICIOUS_ALIGNMENTS : List String := ["Mafia", "Neutral"]

/-- Mirror of `roles.INVESTIGATOR_RESULTS` (dict lookup with default,
see `engine._resolve_investigations`). -/
def INVESTIGATOR_RESULTS (group : String) : Option String :=
  if group = "Leader" then some "Your target could be a Jailor or Godfather."
  else if group = "Investigator" then
    some "Your target could be a Sheriff, Investigator, or Consigliere."
  else if group = "Protector" then some "Your target could be a Doctor."
  else if group = "Escort" then some "Your target could be an Escort."
  else if group = "Watcher" then some "Your target could be a Lookout."
  else if group = "Support" then some "Your target could be a Townie or Janitor."
  else if group = "Killing" then some "Your target could be a Mafioso."
  else if group = "Deception" then some "Your target could be a Jester or Executioner."
  else none

/-- Mirror of `engine.Player` (a mutable dataclass). -/
structure Player where
  name : String
  role : Option Role := none
  alive : Bool := true
  persona : String := "analytical"
  notes : List String := []
  cleaned : Bool := false
deriving DecidableEq

/-- Mirror of `engine.GameState`. -/
structure GameState where
  players : List Player := []
  day : Nat := 1
  phase : String := "night"
  winners : List String := []
deriving DecidableEq

/-- Mirror of `engine.GameEngine`'s mutable game fields (the LLM client and
dialogue generator have no effect on game state and are omitted;
`jailor_executions` starts at 1 and `janitor_cleans` at 2; both are only
decremented under a positivity guard, so `Nat` is faithful). -/
structure Engine where
  state : GameState
  jailor_executions : Nat := 1
  janitor_cleans : Nat := 2
deriving DecidableEq

/-- A role value with empty fields, used only as the `getD` default. -/
def noRole : Role :=
  { name := "", alignment := "", faction := "", investigator_group := "", fake_claim := "" }

/-- A player value used only as the `getD` default for out-of-range indices. -/
def defaultPlayer : Player := { name := "" }

/-- Player at index `i` (out-of-range reads never occur in the modelled flow). -/
def nthPlayer (ps : List Player) (i : Nat) : Player := ps.getD i defaultPlayer

/-- Faction of a player's role; `""` when no role is assigned.  The Python
source reads `player.role.faction` (raising `AttributeError` on a role-less
player where it does not guard with `player.role and ...`); theorems about
whole-night behaviour therefore carry the hypothesis that every player has
an assigned role. -/
def playerFaction (p : Player) : String :=
  match p.role with
  | some r => r.faction
  | none => ""

/-- Alignment of a player's role; `""` when no role is assigned. -/
def playerAlignment (p : Player) : String :=
  match p.role with
  | some r => r.alignment
  | none => ""

/-- Role name of a player's role; `""` when no role is assigned. -/
def playerRoleName (p : Player) : String :=
  match p.role with
  | some r => r.name
  | none => ""

/-- Name of the player at index `i`. -/
def nameAt (ps : List Player) (i : Nat) : String := (nthPlayer ps i).name

/-- Faction of the player at index `i`. -/
def factionAt (ps : List Player) (i : Nat) : String := playerFaction (nthPlayer ps i)

/-- Indices of living players, in roster order: mirror of
`GameEngine._alive_players`. -/
def aliveIdxList (ps : List Player) : List Nat :=
  (List.range ps.length).filter (fun i => (nthPlayer ps i).alive)

/-- Indices of living players of a faction, in roster order: mirror of
`GameEngine._alive_players_by_faction` (its `player.role and
player.role.faction == faction` guard is `playerFaction = faction`, since a
role-less player has `playerFaction` `""`, never a faction name). -/
def aliveByFactionIdx (ps : List Player) (f : String) : List Nat :=
  (aliveIdxList ps).filter (fun i => factionAt ps i = f)

/-- In-place update of the `i`-th list element, mirroring Python's mutation
of the `i`-th `Player` object. -/
def modifyAt (ps : List Player) (i : Nat) (f : Player → Player) : List Player :=
  match ps, i with
  | [], _ => []
  | p :: rest, 0 => f p :: rest
  | p :: rest, Nat.succ j => p :: modifyAt rest j f

theorem modifyAt_length (ps : List Player) (i : Nat) (f : Player → Player) :
    (modifyAt ps i f).length = ps.length := by
  induction ps generalizing i with
  | nil => rfl
  | cons p rest ih =>
    cases i with
    | zero => rfl
    | succ j => simp [modifyAt, ih]

theorem nthPlayer_modifyAt (ps : List Player) (i j : Nat) (f : Player → Player) :
    nthPlayer (modifyAt ps i f) j =
      if i = j ∧ j < ps.length then f (nthPlayer ps j) else nthPlayer ps j := by
  induction ps generalizing i j with
  | nil =>
    simp only [List.length_nil]
    rw [if_neg (by omega)]
    rfl
  | cons p rest ih =>
    cases i with
    | zero =>
      cases j with
      | zero =>
        rw [if_pos ⟨rfl, by simp⟩]
        rfl
      | succ k =>
        rw [if_neg (by omega)]
        rfl
    | succ m =>
      cases j with
      | zero =>
        rw [if_neg (by omega)]
        rfl
      | succ k =>
        have hik := ih m k
        show nthPlayer (modifyAt rest m f) k = _
        rw [hik]
        by_cases h : m = k ∧ k < rest.length
        · rw [if_pos h,
            if_pos (show m + 1 = k + 1 ∧ k + 1 < (p :: rest).length by
              simp only [List.length_cons]; omega)]
          rfl
        · rw [if_neg h,
            if_neg (show ¬(m + 1 = k + 1 ∧ k + 1 < (p :: rest).length) by
              simp only [List.length_cons]; omega)]
          rfl

/-- Mirror of `GameEngine._assign_roles` faction counts: mafia count. -/
def mafiaCountFor (n : Nat) : Nat := if n ≤ 12 then 3 else 4

/-- Mirror of `GameEngine._assign_roles` faction counts: neutral count. -/
def neutralCountFor (n : Nat) : Nat := if n ≤ 12 then 1 else 2

/-- Mirror of `town_count = max(player_count - mafia_count - neutral_count, 0)`
(truncated `Nat` subtraction equals the clamped integer subtraction). -/
def townCountFor (n : Nat) : Nat := n - mafiaCountFor n - neutralCountFor n

/-- Mirror of `filler = TOWN_ROLES[-1]` in `_assign_roles`. -/
def fillerTownRole : Role := TOWN_ROLES.getLastD noRole

/-- Mirror of the padding step
`town_roles.extend([filler] * (town_count - len(town_roles)))`. -/
def padTownRoles (pool : List Role) (cnt : Nat) : List Role :=
  if pool.length < cnt then pool ++ List.replicate (cnt - pool.length) fillerTownRole
  else pool

/-- Mirror of the slicing-and-concatenation step of `_assign_roles`: the three
pools are the independently shuffled catalogs, and the result is the combined
role list before the final shuffle. -/
def buildRoleDeck (n : Nat) (mPool nPool tPool : List Role) : List Role :=
  mPool.take (mafiaCountFor n) ++ nPool.take (neutralCountFor n) ++
    (padTownRoles tPool (townCountFor n)).take (townCountFor n)

/-- Mirror of `zip(self.state.players, roles, strict=False)` followed by
`player.role = role`: pairs stop at the shorter list, players beyond the deck
keep their previous role. -/
def assignRolesTo : List Player → List Role → List Player
  | ps, [] => ps
  | [], _ :: _ => []
  | p :: ps, r :: rs => { p with role := some r } :: assignRolesTo ps rs

/-- Number of players whose assigned role belongs to faction `f`. -/
def countFaction (ps : List Player) (f : String) : Nat :=
  (ps.map playerFaction).count f

theorem assignRolesTo_length (ps : List Player) (rs : List Role) :
    (assignRolesTo ps rs).length = ps.length := by
  induction ps generalizing rs with
  | nil => cases rs <;> rfl
  | cons p rest ih =>
    cases rs with
    | nil => rfl
    | cons r rs => simp [assignRolesTo, ih]

theorem assignRolesTo_map_faction (ps : List Player) (rs : List Role)
    (h : rs.length = ps.length) :
    (assignRolesTo ps rs).map playerFaction = rs.map Role.faction := by
  induction ps generalizing rs with
  | nil =>
    cases rs with
    | nil => rfl
    | cons r rs => simp at h
  | cons p rest ih =>
    cases rs with
    | nil => simp at h
    | cons r rs =>
      have ht := ih rs (by simpa using h)
      simp [assignRolesTo, playerFaction, ht]

theorem assignRolesTo_isSome (ps : List Player) (rs : List Role)
    (h : ps.length ≤ rs.length) :
    ∀ p ∈ assignRolesTo ps rs, p.role.isSome = true := by
  induction ps generalizing rs with
  | nil =>
    cases rs with
    | nil => intro p hp; simp [assignRolesTo] at hp
    | cons r rs => intro p hp; simp [assignRolesTo] at hp
  | cons q rest ih =>
    cases rs with
    | nil => simp at h
    | cons r rs =>
      intro p hp
      simp only [assignRolesTo, List.mem_cons] at hp
      rcases hp with hp | hp
      · subst hp; rfl
      · exact ih rs (by simpa using h) p hp

theorem count_map_faction_of_all (l : List Role) (c f : String)
    (h : ∀ r ∈ l, r.faction = c) :
    (l.map Role.faction).count f = if f = c then l.length else 0 := by
  induction l with
  | nil => simp [List.count_nil]
  | cons r rest ih =>
    have hr : r.faction = c := h r (List.mem_cons_self r rest)
    have ihr := ih (fun x hx => h x (List.mem_cons_of_mem r hx))
    simp only [List.map_cons, List.count_cons, ihr, hr, List.length_cons]
    by_cases hfc : f = c
    · simp [hfc]
    · have hcf : ¬c = f := fun hcf => hfc hcf.symm
      simp [hfc, hcf]

theorem mafia_pool_all (mPool : List Role) (hm : mPool.Perm MAFIA_ROLES) :
    ∀ r ∈ mPool, r.faction = "Mafia" := by
  intro r hr
  have : r ∈ MAFIA_ROLES := hm.mem_iff.mp hr
  fin_cases this <;> rfl

theorem neutral_pool_all (nPool : List Role) (hn : nPool.Perm NEUTRAL_ROLES) :
    ∀ r ∈ nPool, r.faction = "Neutral" := by
  intro r hr
  have : r ∈ NEUTRAL_ROLES := hn.mem_iff.mp hr
  fin_cases this <;> rfl

theorem town_pool_all (tPool : List Role) (ht : tPool.Perm TOWN_ROLES) :
    ∀ r ∈ tPool, r.faction = "Town" := by
  intro r hr
  have : r ∈ TOWN_ROLES := ht.mem_iff.mp hr
  fin_cases this <;> rfl

theorem padTownRoles_all (tPool : List Role) (cnt : Nat)
    (h : ∀ r ∈ tPool, r.faction = "Town") :
    ∀ r ∈ padTownRoles tPool cnt, r.faction = "Town" := by
  intro r hr
  unfold padTownRoles at hr
  by_cases hlen : tPool.length < cnt
  · rw [if_pos hlen] at hr
    rcases List.mem_append.mp hr with hr | hr
    · exact h r hr
    · have := (List.eq_of_mem_replicate hr)
      rw [this]; rfl
  · rw [if_neg hlen] at hr
    exact h r hr

theorem padTownRoles_length_take (tPool : List Role) (cnt : Nat) :
    ((padTownRoles tPool cnt).take cnt).length = cnt := by
  unfold padTownRoles
  by_cases hlen : tPool.length < cnt
  · rw [if_pos hlen]
    simp [List.length_take, List.length_replicate]
    omega
  · rw [if_neg hlen]
    simp [List.length_take]
    omega

theorem deck_counts (n : Nat) (hn : 7 ≤ n) (mPool nPool tPool : List Role)
    (hm : mPool.Perm MAFIA_ROLES) (hne : nPool.Perm NEUTRAL_ROLES)
    (ht : tPool.Perm TOWN_ROLES) :
    (buildRoleDeck n mPool nPool tPool).length = n ∧
    ((buildRoleDeck n mPool nPool tPool).map Role.faction).count "Mafia" = mafiaCountFor n ∧
    ((buildRoleDeck n mPool nPool tPool).map Role.faction).count "Neutral" = neutralCountFor n ∧
    ((buildRoleDeck n mPool nPool tPool).map Role.faction).count "Town" = townCountFor n := by
  have hmlen : mPool.length = 4 := by rw [hm.length_eq]; rfl
  have hnlen : nPool.length = 2 := by rw [hne.length_eq]; rfl
  have hmc : mafiaCountFor n ≤ 4 := by unfold mafiaCountFor; split <;> omega
  have hnc : neutralCountFor n ≤ 2 := by unfold neutralCountFor; split <;> omega
  have hmtake : (mPool.take (mafiaCountFor n)).length = mafiaCountFor n := by
    simp [List.length_take]; omega
  have hntake : (nPool.take (neutralCountFor n)).length = neutralCountFor n := by
    simp [List.length_take]; omega
  have httake := padTownRoles_length_take tPool (townCountFor n)
  have hmall : ∀ r ∈ mPool.take (mafiaCountFor n), r.faction = "Mafia" :=
    fun r hr => mafia_pool_all mPool hm r (List.take_subset _ _ hr)
  have hnall : ∀ r ∈ nPool.take (neutralCountFor n), r.faction = "Neutral" :=
    fun r hr => neutral_pool_all nPool hne r (List.take_subset _ _ hr)
  have htall : ∀ r ∈ (padTownRoles tPool (townCountFor n)).take (townCountFor n),
      r.faction = "Town" :=
    fun r hr =>
      padTownRoles_all tPool (townCountFor n) (town_pool_all tPool ht) r
        (List.take_subset _ _ hr)
  refine ⟨?_, ?_, ?_, ?_⟩
  · unfold buildRoleDeck
    simp only [List.length_append, hmtake, hntake, httake]
    unfold townCountFor mafiaCountFor neutralCountFor
    split <;> omega
  · unfold buildRoleDeck
    simp only [List.map_append, List.count_append]
    rw [count_map_faction_of_all _ "Mafia" "Mafia" hmall,
      count_map_faction_of_all _ "Neutral" "Mafia" hnall,
      count_map_faction_of_all _ "Town" "Mafia" htall]
    simp [hmtake]
  · unfold buildRoleDeck
    simp only [List.map_append, List.count_append]
    rw [count_map_faction_of_all _ "Mafia" "Neutral" hmall,
      count_map_faction_of_all _ "Neutral" "Neutral" hnall,
      count_map_faction_of_all _ "Town" "Neutral" htall]
    simp [hntake]
  · unfold buildRoleDeck
    simp only [List.map_append, List.count_append]
    rw [count_map_faction_of_all _ "Mafia" "Town" hmall,
      count_map_faction_of_all _ "Neutral" "Town" hnall,
      count_map_faction_of_all _ "Town" "Town" htall]
    simp [httake]

/-- C5: for every player list of size at least 7, after role assignment every
player holds exactly one role, and the faction counts match the scaling rule:
3 Mafia and 1 Neutral when the player count is at most 12, otherwise 4 Mafia
and 2 Neutral, with all remaining players Town.  The three pool arguments
are the shuffled catalogs and `deck` is the final shuffled role list, so the
theorem quantifies over every outcome of the random shuffles. -/
theorem roleAssignment_faction_counts (n : Nat) (hn : 7 ≤ n)
    (players : List Player) (hp : players.length = n)
    (mPool nPool tPool deck : List Role)
    (hm : mPool.Perm MAFIA_ROLES) (hne : nPool.Perm NEUTRAL_ROLES)
    (ht : tPool.Perm TOWN_ROLES)
    (hd : deck.Perm (buildRoleDeck n mPool nPool tPool)) :
    (assignRolesTo players deck).length = n ∧
    (∀ p ∈ assignRolesTo players deck, p.role.isSome = true) ∧
    countFaction (assignRolesTo players deck) "Mafia" = (if n ≤ 12 then 3 else 4) ∧
    countFaction (assignRolesTo players deck) "Neutral" = (if n ≤ 12 then 1 else 2) ∧
    countFaction (assignRolesTo players deck) "Town" =
      n - (if n ≤ 12 then 3 else 4) - (if n ≤ 12 then 1 else 2) := by
  obtain ⟨hdlen, hcm, hcn, hct⟩ := deck_counts n hn mPool nPool tPool hm hne ht
  have hdeck : deck.length = n := by rw [hd.length_eq, hdlen]
  have hmapeq :
      (assignRolesTo players deck).map playerFaction = deck.map Role.faction :=
    assignRolesTo_map_faction players deck (by omega)
  have hcount : ∀ f, countFaction (assignRolesTo players deck) f =
      ((buildRoleDeck n mPool nPool tPool).map Role.faction).count f := by
    intro f
    unfold countFaction
    rw [hmapeq]
    exact (hd.map Role.faction).count_eq f
  refine ⟨by rw [assignRolesTo_length, hp], ?_, ?_, ?_, ?_⟩
  · exact assignRolesTo_isSome players deck (by omega)
  · rw [hcount, hcm]; rfl
  · rw [hcount, hcn]; rfl
  · rw [hcount, hct]; rfl

/-- Concrete 7-player roster used by the witness of the role-assignment claim. -/
def players7 : List Player :=
  ["Alice", "Ben", "Casey", "Drew", "Emery", "Flynn", "Gray"].map
    (fun nm => { name := nm })

/-- Identity-shuffle deck for the 7-player witness roster. -/
def deck7 : List Role := buildRoleDeck 7 MAFIA_ROLES NEUTRAL_ROLES TOWN_ROLES

/-- Witness for the role-assignment claim at a concrete 7-player roster. -/
theorem roleAssignment_faction_counts_w :
    (assignRolesTo players7 deck7).length = 7 ∧
    (∀ p ∈ assignRolesTo players7 deck7, p.role.isSome = true) ∧
    countFaction (assignRolesTo players7 deck7) "Mafia" = (if 7 ≤ 12 then 3 else 4) ∧
    countFaction (assignRolesTo players7 deck7) "Neutral" = (if 7 ≤ 12 then 1 else 2) ∧
    countFaction (assignRolesTo players7 deck7) "Town" =
      7 - (if 7 ≤ 12 then 3 else 4) - (if 7 ≤ 12 then 1 else 2) :=
  roleAssignment_faction_counts 7 (by decide) players7 (by decide)
    MAFIA_ROLES NEUTRAL_ROLES TOWN_ROLES deck7
    (List.Perm.refl _) (List.Perm.refl _) (List.Perm.refl _) (List.Perm.refl _)

/-- Shorthand for catalog roles used by concrete scenario states. -/
def jailorRole : Role := TOWN_ROLES.getD 0 noRole

/-- Sheriff catalog entry. -/
def sheriffRole : Role := TOWN_ROLES.getD 1 noRole

/-- Investigator catalog entry. -/
def investigatorRole : Role := TOWN_ROLES.getD 2 noRole

/-- Doctor catalog entry. -/
def doctorRole : Role := TOWN_ROLES.getD 3 noRole

/-- Escort catalog entry. -/
def escortRole : Role := TOWN_ROLES.getD 4 noRole

/-- Townie catalog entry. -/
def townieRole : Role := TOWN_ROLES.getD 6 noRole

/-- Godfather catalog entry. -/
def godfatherRole : Role := MAFIA_ROLES.getD 0 noRole

/-- Mafioso catalog entry. -/
def mafiosoRole : Role := MAFIA_ROLES.getD 1 noRole

/-- Consigliere catalog entry. -/
def consigliereRole : Role := MAFIA_ROLES.getD 2 noRole

/-- Janitor catalog entry. -/
def janitorRole : Role := MAFIA_ROLES.getD 3 noRole

/-- A living player holding the given role. -/
def mkRolePlayer (nm : String) (r : Role) : Player := { name := nm, role := some r }

/-- Mirror of `GameEngine._check_win_conditions`: mutates the winner set and
returns whether a win condition fired. -/
def checkWinConditions (st : GameState) : GameState × Bool :=
  let town := aliveByFactionIdx st.players "Town"
  let mafia := aliveByFactionIdx st.players "Mafia"
  if mafia.isEmpty then ({ st with winners := ["Town"] }, true)
  else if town.length ≤ mafia.length then ({ st with winners := ["Mafia"] }, true)
  else (st, false)

/-- Scenario state with 0 living Mafia and 5 living Town players. -/
def scTown5 : GameState :=
  { players := [mkRolePlayer "T1" townieRole, mkRolePlayer "T2" sheriffRole,
      mkRolePlayer "T3" doctorRole, mkRolePlayer "T4" escortRole,
      mkRolePlayer "T5" townieRole] }

/-- Scenario state with 3 living Mafia and 3 living Town players. -/
def scPar33 : GameState :=
  { players := [mkRolePlayer "M1" godfatherRole, mkRolePlayer "M2" mafiosoRole,
      mkRolePlayer "M3" consigliereRole, mkRolePlayer "T1" townieRole,
      mkRolePlayer "T2" sheriffRole, mkRolePlayer "T3" doctorRole] }

/-- Scenario state with 2 living Mafia and 5 living Town players. -/
def scM2T5 : GameState :=
  { players := [mkRolePlayer "M1" godfatherRole, mkRolePlayer "M2" mafiosoRole,
      mkRolePlayer "T1" townieRole, mkRolePlayer "T2" sheriffRole,
      mkRolePlayer "T3" doctorRole, mkRolePlayer "T4" escortRole,
      mkRolePlayer "T5" townieRole] }

/-- C6: the win evaluator declares Town the winner iff no living Mafia-faction
player remains; otherwise it declares Mafia iff living Mafia count is at least
the living Town count; otherwise no winner.  The three scenario conjuncts
instantiate the rule at living counts Mafia 0 / Town 5, Mafia 3 / Town 3 and
Mafia 2 / Town 5. -/
theorem winEvaluator_rule (st : GameState) (hw : st.winners = []) :
    ((checkWinConditions st).1.winners = ["Town"] ↔
      aliveByFactionIdx st.players "Mafia" = []) ∧
    ((checkWinConditions st).1.winners = ["Mafia"] ↔
      (aliveByFactionIdx st.players "Mafia" ≠ [] ∧
        (aliveByFactionIdx st.players "Town").length ≤
          (aliveByFactionIdx st.players "Mafia").length)) ∧
    ((checkWinConditions st).2 = false ↔
      (aliveByFactionIdx st.players "Mafia" ≠ [] ∧
        (aliveByFactionIdx st.players "Mafia").length <
          (aliveByFactionIdx st.players "Town").length)) ∧
    (checkWinConditions scTown5).1.winners = ["Town"] ∧
    (checkWinConditions scPar33).1.winners = ["Mafia"] ∧
    (checkWinConditions scM2T5).2 = false ∧
    (checkWinConditions scM2T5).1.winners = [] := by
  refine ⟨?_, ?_, ?_, by decide, by decide, by decide, by decide⟩
  · unfold checkWinConditions
    by_cases hm : (aliveByFactionIdx st.players "Mafia").isEmpty
    · simp only [hm, if_pos]
      simp [List.isEmpty_iff.mp hm]
    · rw [if_neg (by simp [hm])]
      have hne : aliveByFactionIdx st.players "Mafia" ≠ [] := by
        intro hc; rw [hc] at hm; simp at hm
      by_cases hl : (aliveByFactionIdx st.players "Town").length ≤
          (aliveByFactionIdx st.players "Mafia").length
      · simp only [if_pos hl]
        simp [hne]
      · simp only [if_neg hl]
        simp [hw, hne]
  · unfold checkWinConditions
    by_cases hm : (aliveByFactionIdx st.players "Mafia").isEmpty
    · simp only [hm, if_pos]
      simp [List.isEmpty_iff.mp hm]
    · rw [if_neg (by simp [hm])]
      have hne : aliveByFactionIdx st.players "Mafia" ≠ [] := by
        intro hc; rw [hc] at hm; simp at hm
      by_cases hl : (aliveByFactionIdx st.players "Town").length ≤
          (aliveByFactionIdx st.players "Mafia").length
      · simp only [if_pos hl]
        simp [hne, hl]
      · simp only [if_neg hl]
        simp [hw, hne, hl]
  · unfold checkWinConditions
    by_cases hm : (aliveByFactionIdx st.players "Mafia").isEmpty
    · simp only [hm, if_pos]
      simp [List.isEmpty_iff.mp hm]
    · rw [if_neg (by simp [hm])]
      have hne : aliveByFactionIdx st.players "Mafia" ≠ [] := by
        intro hc; rw [hc] at hm; simp at hm
      by_cases hl : (aliveByFactionIdx st.players "Town").length ≤
          (aliveByFactionIdx st.players "Mafia").length
      · simp only [if_pos hl]
        simp [hne]
        omega
      · simp only [if_neg hl]
        simp [hne]
        omega

/-- Witness for the win-evaluator claim at the concrete 2-Mafia/5-Town state. -/
theorem winEvaluator_rule_w :
    ((checkWinConditions scM2T5).1.winners = ["Town"] ↔
      aliveByFactionIdx scM2T5.players "Mafia" = []) ∧
    ((checkWinConditions scM2T5).1.winners = ["Mafia"] ↔
      (aliveByFactionIdx scM2T5.players "Mafia" ≠ [] ∧
        (aliveByFactionIdx scM2T5.players "Town").length ≤
          (aliveByFactionIdx scM2T5.players "Mafia").length)) ∧
    ((checkWinConditions scM2T5).2 = false ↔
      (aliveByFactionIdx scM2T5.players "Mafia" ≠ [] ∧
        (aliveByFactionIdx scM2T5.players "Mafia").length <
          (aliveByFactionIdx scM2T5.players "Town").length)) ∧
    (checkWinConditions scTown5).1.winners = ["Town"] ∧
    (checkWinConditions scPar33).1.winners = ["Mafia"] ∧
    (checkWinConditions scM2T5).2 = false ∧
    (checkWinConditions scM2T5).1.winners = [] :=
  winEvaluator_rule scM2T5 rfl

/-- Character-level splitter: fuel-indexed worker.  With fuel at least the
length of the scanned list and a non-empty separator, this computes exactly
Python's `str.split(sep)` (leftmost, non-overlapping occurrences). -/
def charSplitAux (sep : List Char) : Nat → List Char → List Char → List (List Char)
  | 0, acc, s => [acc.reverse ++ s]
  | _ + 1, acc, [] => [acc.reverse]
  | fuel + 1, acc, c :: rest =>
    if List.isPrefixOf sep (c :: rest) then
      acc.reverse :: charSplitAux sep fuel [] (List.drop sep.length (c :: rest))
    else
      charSplitAux sep fuel (c :: acc) rest

/-- Python `s.split(sep)` for the non-empty separators used by the source. -/
def strSplitOn (s sep : String) : List String :=
  if sep.data = [] then [s]
  else (charSplitAux sep.data (s.data.length + 1) [] s.data).map (fun l => String.mk l)

/-- Python `s.split(sep, 1)[1]`: everything after the first occurrence of
`sep`, with later occurrences left intact (used only under an `in` guard, so
the no-occurrence case never arises in the modelled flow). -/
def pySplitTail (s sep : String) : String :=
  match strSplitOn s sep with
  | [] => ""
  | _ :: rest => String.intercalate sep rest

/-- Python `sub in s`: at least one occurrence splits `s` into two parts. -/
def strContainsSub (s sub : String) : Bool := 2 ≤ (strSplitOn s sub).length

/-- Mirror of `GameEngine._extract_suspect_name`. -/
def extractSuspectName (note : String) : Option String :=
  if strContainsSub note "suspicious" = false then none
  else if strContainsSub note "Sheriff result on " then
    some ((strSplitOn (pySplitTail note "Sheriff result on ") ":").headD "")
  else none

/-- Mirror of `GameEngine._suspicion_counts`, modelled by the multiplicity
function of the `suspect_counts` dict: the count of a name is the number of
(living Town player, note) pairs whose note parses to that name.  Membership
`name in suspect_counts` is `0 < suspicionCount`, since the dict only ever
stores values that have been incremented at least once. -/
def suspicionCount (ps : List Player) (nm : String) : Nat :=
  (aliveByFactionIdx ps "Town").foldl
    (fun acc i =>
      acc + (nthPlayer ps i).notes.countP (fun note => extractSuspectName note = some nm))
    0

/-- Python `max(l, key=key)` on a non-empty list: keeps the first element,
replacing it only on a strictly larger key, so ties go to the earliest
element in iteration order. -/
def pyMax (key : Nat → Nat) : List Nat → Option Nat
  | [] => none
  | x :: xs => some (xs.foldl (fun b y => if key b < key y then y else b) x)

/-- Mirror of `eligible = [player for player in alive if player.name in
suspect_counts]` in `_trial_and_lynch`. -/
def suspectEligible (ps : List Player) : List Nat :=
  (aliveIdxList ps).filter (fun i => 0 < suspicionCount ps (nameAt ps i))

/-- The suspect `_trial_and_lynch` picks, or `none` when fewer than three
players live or nobody is in the tally. -/
def lynchSelect (ps : List Player) : Option Nat :=
  if (aliveIdxList ps).length < 3 then none
  else pyMax (fun i => suspicionCount ps (nameAt ps i)) (suspectEligible ps)

/-- Mirror of `GameEngine._trial_and_lynch`. -/
def trialAndLynch (ps : List Player) : List Player :=
  match lynchSelect ps with
  | none => ps
  | some s => modifyAt ps s (fun p => { p with alive := false })

/-- Mirror of `GameEngine._run_day` (the dialogue lines are narration only;
then the trial runs and the win evaluator is invoked). -/
def runDay (e : Engine) : Engine :=
  let st1 := { e.state with phase := "day", players := trialAndLynch e.state.players }
  { e with state := (checkWinConditions st1).1 }

theorem pyMax_foldl_spec (key : Nat → Nat) (ys : List Nat) (b r : Nat)
    (h : ys.foldl (fun v y => if key v < key y then y else v) b = r) :
    (r = b ∧ ∀ y ∈ ys, key y ≤ key b) ∨
    (∃ l1 l2, ys = l1 ++ r :: l2 ∧ key b < key r ∧
      (∀ y ∈ l1, key y < key r) ∧ (∀ y ∈ l2, key y ≤ key r)) := by
  induction ys generalizing b with
  | nil =>
    left
    exact ⟨h.symm, by simp⟩
  | cons y ys ih =>
    simp only [List.foldl_cons] at h
    by_cases hk : key b < key y
    · rw [if_pos hk] at h
      rcases ih y h with ⟨hr, hall⟩ | ⟨l1, l2, heq, hlt, hl1, hl2⟩
      · right
        refine ⟨[], ys, by simp [hr], by rw [hr]; exact hk, by simp, ?_⟩
        intro z hz
        rw [hr]
        exact hall z hz
      · right
        refine ⟨y :: l1, l2, by simp [heq], lt_trans hk hlt, ?_, hl2⟩
        intro z hz
        rcases List.mem_cons.mp hz with hz | hz
        · rw [hz]; exact hlt
        · exact hl1 z hz
    · rw [if_neg hk] at h
      rcases ih b h with ⟨hr, hall⟩ | ⟨l1, l2, heq, hlt, hl1, hl2⟩
      · left
        refine ⟨hr, ?_⟩
        intro z hz
        rcases List.mem_cons.mp hz with hz | hz
        · rw [hz]; omega
        · exact hall z hz
      · right
        refine ⟨y :: l1, l2, by simp [heq], hlt, ?_, hl2⟩
        intro z hz
        rcases List.mem_cons.mp hz with hz | hz
        · rw [hz]; omega
        · exact hl1 z hz

theorem pyMax_spec (key : Nat → Nat) (l : List Nat) (s : Nat)
    (h : pyMax key l = some s) :
    s ∈ l ∧ (∀ y ∈ l, key y ≤ key s) ∧
    ∃ l1 l2, l = l1 ++ s :: l2 ∧ ∀ y ∈ l1, key y < key s := by
  cases l with
  | nil => simp [pyMax] at h
  | cons x xs =>
    simp only [pyMax, Option.some.injEq] at h
    rcases pyMax_foldl_spec key xs x s h with ⟨hr, hall⟩ | ⟨l1, l2, heq, hlt, hl1, hl2⟩
    · subst hr
      refine ⟨List.mem_cons_self _ _, ?_, [], xs, rfl, by simp⟩
      intro z hz
      rcases List.mem_cons.mp hz with hz | hz
      · rw [hz]
      · exact hall z hz
    · subst heq
      refine ⟨by simp, ?_, x :: l1, l2, rfl, ?_⟩
      · intro z hz
        rcases List.mem_cons.mp hz with hz | hz
        · rw [hz]; omega
        · rcases List.mem_append.mp hz with hz | hz
          · exact le_of_lt (hl1 z hz)
          · rcases List.mem_cons.mp hz with hz | hz
            · rw [hz]
            · exact hl2 z hz
      · intro z hz
        rcases List.mem_cons.mp hz with hz | hz
        · rw [hz]; exact hlt
        · exact hl1 z hz

/-- Living Town players below 3 total alive: no trial.  Concrete state with a
Mafia player holding a "suspicious" sheriff note: the tally ignores it. -/
def mafiaNoteState : List Player :=
  [ { name := "M1", role := some mafiosoRole,
      notes := ["Sheriff result on Tom: suspicious."] },
    mkRolePlayer "Tom" townieRole ]

/-- Concrete state with a dead Sheriff holding a "suspicious" note: the tally
ignores notes of dead players. -/
def deadSheriffState : List Player :=
  [ { name := "S1", role := some sheriffRole, alive := false,
      notes := ["Sheriff result on Tom: suspicious."] },
    mkRolePlayer "Tom" townieRole ]

/-- C7: the day resolver is a no-op when fewer than 3 players live or the
suspicion tally is empty; otherwise it eliminates exactly the first living
player (in alive-list order) with the highest tally among those appearing in
the tally.  The closed conjuncts check the note parser: only
"suspicious"-format Sheriff notes produce a tally entry, and notes held by
non-Town or dead players contribute nothing. -/
theorem dayResolver_trial (ps : List Player) :
    ((aliveIdxList ps).length < 3 → trialAndLynch ps = ps) ∧
    (¬ (aliveIdxList ps).length < 3 →
      (suspectEligible ps = [] → trialAndLynch ps = ps) ∧
      (suspectEligible ps ≠ [] → (lynchSelect ps).isSome = true) ∧
      (∀ s, lynchSelect ps = some s →
        trialAndLynch ps = modifyAt ps s (fun p => { p with alive := false }) ∧
        (nthPlayer (trialAndLynch ps) s).alive = false ∧
        (∀ j, j ≠ s → nthPlayer (trialAndLynch ps) j = nthPlayer ps j) ∧
        s ∈ suspectEligible ps ∧
        (∀ i ∈ suspectEligible ps,
          suspicionCount ps (nameAt ps i) ≤ suspicionCount ps (nameAt ps s)) ∧
        (∃ l1 l2, suspectEligible ps = l1 ++ s :: l2 ∧
          ∀ i ∈ l1, suspicionCount ps (nameAt ps i) < suspicionCount ps (nameAt ps s)))) ∧
    extractSuspectName "Sheriff result on Bob: suspicious." = some "Bob" ∧
    extractSuspectName "Sheriff result on Bob: innocent." = none ∧
    extractSuspectName "Investigator on Bob: Your target could be a Mafioso." = none ∧
    extractSuspectName "Consigliere learns Bob is Mafioso." = none ∧
    suspicionCount mafiaNoteState "Tom" = 0 ∧
    suspicionCount deadSheriffState "Tom" = 0 := by
  refine ⟨?_, ?_, by decide, by decide, by decide, by decide, by decide, by decide⟩
  · intro hlt
    unfold trialAndLynch lynchSelect
    rw [if_pos hlt]
  · intro hge
    refine ⟨?_, ?_, ?_⟩
    · intro helig
      unfold trialAndLynch lynchSelect
      rw [if_neg hge, helig]
      rfl
    · intro helig
      unfold lynchSelect
      rw [if_neg hge]
      cases he : suspectEligible ps with
      | nil => exact absurd he helig
      | cons x xs => simp [pyMax]
    · intro s hs
      have hsel : pyMax (fun i => suspicionCount ps (nameAt ps i)) (suspectEligible ps)
          = some s := by
        unfold lynchSelect at hs
        rw [if_neg hge] at hs
        exact hs
      obtain ⟨hmem, hmax, l1, l2, hsplit, hfirst⟩ :=
        pyMax_spec (fun i => suspicionCount ps (nameAt ps i)) (suspectEligible ps) s hsel
      have htl : trialAndLynch ps = modifyAt ps s (fun p => { p with alive := false }) := by
        unfold trialAndLynch
        rw [hs]
      have hslt : s < ps.length := by
        have h1 : s ∈ aliveIdxList ps := List.mem_of_mem_filter hmem
        have h2 : s ∈ List.range ps.length := List.mem_of_mem_filter h1
        exact List.mem_range.mp h2
      refine ⟨htl, ?_, ?_, hmem, hmax, l1, l2, hsplit, hfirst⟩
      · rw [htl, nthPlayer_modifyAt, if_pos ⟨rfl, hslt⟩]
      · intro j hj
        rw [htl, nthPlayer_modifyAt, if_neg (by omega)]

/-- Witness for the day-resolver claim: a concrete 4-player state where two
living Town sheriffs suspect the Mafioso, who is then eliminated. -/
def dayState : List Player :=
  [ { name := "S1", role := some sheriffRole,
      notes := ["Sheriff result on M1: suspicious."] },
    { name := "S2", role := some sheriffRole,
      notes := ["Sheriff result on M1: suspicious.", "Sheriff result on T1: suspicious."] },
    mkRolePlayer "M1" mafiosoRole,
    mkRolePlayer "T1" townieRole ]

/-- Witness for the day-resolver claim at `dayState`: the rule instantiated at
a concrete input, with the eliminated player computed explicitly. -/
theorem dayResolver_trial_w :
    (¬ (aliveIdxList dayState).length < 3) ∧
    lynchSelect dayState = some 2 ∧
    trialAndLynch dayState = modifyAt dayState 2 (fun p => { p with alive := false }) ∧
    (nthPlayer (trialAndLynch dayState) 2).alive = false := by
  refine ⟨by decide, by decide, ?_, ?_⟩
  · exact (((dayResolver_trial dayState).2.1 (by decide)).2.2 2 (by decide)).1
  · exact (((dayResolver_trial dayState).2.1 (by decide)).2.2 2 (by decide)).2.1

/-- Python `s.startswith(p)`, character-list-wise. -/
def strStartsWith (s p : String) : Bool := List.isPrefixOf p.data s.data

/-- A night-action table entry: action key, actor index, optional target
index — mirror of the `(acting Player, optional target Player)` values of
the `actions` dict. -/
abbrev NightEntry : Type := String × Nat × Option Nat

/-- Key of a night-action entry. -/
def entKey (ent : NightEntry) : String := ent.1

/-- Actor index of a night-action entry. -/
def entActor (ent : NightEntry) : Nat := ent.2.1

/-- Target index of a night-action entry. -/
def entTarget (ent : NightEntry) : Option Nat := ent.2.2

/-- Python dict assignment `d[k] = v`: replaces the value in place when the
key exists, else appends; insertion order is preserved, which matters because
`_resolve_investigations` and `_validate_night` iterate the dict in order. -/
def dictInsert (l : List NightEntry) (k : String) (v : Nat × Option Nat) :
    List NightEntry :=
  if l.any (fun ent => entKey ent = k) then
    l.map (fun ent => if entKey ent = k then (k, v) else ent)
  else l ++ [(k, v)]

/-- Python dict lookup `d.get(k)`. -/
def dictGet (l : List NightEntry) (k : String) : Option (Nat × Option Nat) :=
  (l.find? (fun ent => entKey ent = k)).map (fun ent => ent.2)

/-- Python dict membership `k in d`. -/
def dictMem (l : List NightEntry) (k : String) : Bool :=
  l.any (fun ent => entKey ent = k)

/-- One night's worth of random draws: `target i` is what the targeting
policy of the player at index `i` returned (`none` when the policy found no
candidate), and `mafiaTarget` is the `rng.choice(mafia_targets)` draw.
`ChoicesValid` restricts these to the values the source policies can
actually produce. -/
structure Choices where
  target : Nat → Option Nat
  mafiaTarget : Nat

/-- Accumulator of the action-collection loop of `_run_night`: the action
table, the jailed player, the jailor, and the roleblocked name set (modelled
as a list; only membership is ever consulted). -/
structure NightAcc where
  actions : List NightEntry := []
  jailed : Option Nat := none
  jailor : Option Nat := none
  roleblocked : List String := []

/-- One iteration of the action-collection loop of `_run_night` (lines
203-230): records the acting player's action under its role's key.  Note the
loop never consults the jailed/roleblocked state: a jailed player's action is
still collected. -/
def collectStep (ps : List Player) (ch : Choices) (acc : NightAcc) (i : Nat) :
    NightAcc :=
  if (nthPlayer ps i).role = none then acc
  else if playerRoleName (nthPlayer ps i) = "Jailor" then
    { acc with actions := dictInsert acc.actions "jail" (i, ch.target i),
               jailed := ch.target i, jailor := some i }
  else if playerRoleName (nthPlayer ps i) = "Escort" then
    match ch.target i with
    | some t =>
      { acc with roleblocked := acc.roleblocked ++ [nameAt ps t],
                 actions := dictInsert acc.actions "roleblock" (i, some t) }
    | none => acc
  else if playerRoleName (nthPlayer ps i) = "Doctor" then
    { acc with actions := dictInsert acc.actions "heal" (i, ch.target i) }
  else if playerRoleName (nthPlayer ps i) = "Lookout" then
    { acc with actions := dictInsert acc.actions "watch" (i, ch.target i) }
  else if playerRoleName (nthPlayer ps i) = "Sheriff" then
    { acc with actions :=
        dictInsert acc.actions ("sheriff-" ++ nameAt ps i) (i, ch.target i) }
  else if playerRoleName (nthPlayer ps i) = "Investigator" then
    { acc with actions :=
        dictInsert acc.actions ("investigator-" ++ nameAt ps i) (i, ch.target i) }
  else if playerRoleName (nthPlayer ps i) = "Consigliere" then
    { acc with actions :=
        dictInsert acc.actions ("consigliere-" ++ nameAt ps i) (i, ch.target i) }
  else acc

/-- The full action-collection loop over living players in roster order. -/
def loopActions (ps : List Player) (ch : Choices) : NightAcc :=
  (aliveIdxList ps).foldl (collectStep ps ch) {}

/-- Mirror of `mafia_targets = [p for p in alive if p.role.faction != "Mafia"]`
(the source reads `p.role.faction` unguarded; see `playerFaction`). -/
def mafiaTargetsList (ps : List Player) : List Nat :=
  (aliveIdxList ps).filter (fun i => factionAt ps i ≠ "Mafia")

/-- Mirror of `mafia[0]`, evaluated only when the Mafia list is non-empty. -/
def mafiaHead (ps : List Player) : Nat := (aliveByFactionIdx ps "Mafia").headD 0

/-- Mafia coordination stage of `_run_night` (lines 232-239): one kill per
faction on a random non-Mafia living target, plus a janitor clean on the same
target when a Janitor lives among the Mafia and cleans remain; the branch
structure mirrors the Python truthiness tests.  Returns the updated
accumulator, the chosen kill target, and the remaining clean count. -/
def mafiaPhase (ps : List Player) (cleans : Nat) (ch : Choices) (acc : NightAcc) :
    NightAcc × Option Nat × Nat :=
  if aliveByFactionIdx ps "Mafia" ≠ [] ∧ mafiaTargetsList ps ≠ [] then
    if (aliveByFactionIdx ps "Mafia").any
        (fun i => playerRoleName (nthPlayer ps i) == "Janitor") then
      if 0 < cleans then
        ({ acc with actions :=
            (dictInsert
              (dictInsert acc.actions "mafia_kill" (mafiaHead ps, some ch.mafiaTarget))
              "janitor_clean" (mafiaHead ps, some ch.mafiaTarget)) },
          some ch.mafiaTarget, cleans - 1)
      else
        ({ acc with actions :=
            (dictInsert acc.actions "mafia_kill" (mafiaHead ps, some ch.mafiaTarget)) },
          some ch.mafiaTarget, cleans)
    else
      ({ acc with actions :=
          (dictInsert acc.actions "mafia_kill" (mafiaHead ps, some ch.mafiaTarget)) },
        some ch.mafiaTarget, cleans)
  else (acc, none, cleans)

/-- Mirror of `if jailed: roleblocked.add(jailed.name)` (lines 241-242). -/
def addJailedRoleblock (ps : List Player) (acc : NightAcc) : NightAcc :=
  match acc.jailed with
  | some j => { acc with roleblocked := acc.roleblocked ++ [nameAt ps j] }
  | none => acc

/-- Mirror of `heal_target = actions.get("heal", (None, None))[1]`. -/
def healTargetOf (acts : List NightEntry) : Option Nat :=
  match dictGet acts "heal" with
  | some (_, t) => t
  | none => none

/-- Kill resolution of `_run_night` (lines 250-254): the deaths contributed
by the Mafia kill.  The roleblock test is on the kill's TARGET name; the
actor is never consulted. -/
def killDeaths (ps : List Player) (acts : List NightEntry) (rb : List String)
    (heal jailed : Option Nat) : List Nat :=
  match dictGet acts "mafia_kill" with
  | some (_, some t) =>
    if nameAt ps t ∈ rb then []
    else if heal ≠ some t ∧ jailed ≠ some t then [t] else []
  | _ => []

/-- Jailor-execution resolution of `_run_night` (lines 256-258). -/
def execDeath (ps : List Player) (jailed : Option Nat) (execs : Nat) :
    List Nat × Nat :=
  match jailed with
  | some j =>
    if 0 < execs ∧ factionAt ps j ≠ "Town" then ([j], execs - 1) else ([], execs)
  | none => ([], execs)

/-- Janitor-clean resolution of `_run_night` (lines 260-263): marks the body
cleaned when the clean's target is among this night's deaths.  The
roleblocked set is never consulted here. -/
def applyClean (ps : List Player) (acts : List NightEntry) (deaths : List Nat) :
    List Player :=
  if dictMem acts "janitor_clean" = true ∧ deaths ≠ [] then
    match dictGet acts "janitor_clean" with
    | some (_, some t) =>
      if t ∈ deaths then modifyAt ps t (fun p => { p with cleaned := true }) else ps
    | _ => ps
  else ps

/-- Liveness update of `_run_night` (lines 265-266). -/
def applyDeaths (ps : List Player) (deaths : List Nat) : List Player :=
  deaths.foldl (fun acc j => modifyAt acc j (fun p => { p with alive := false })) ps

/-- Investigation-group of a player's role; `""` when no role is assigned. -/
def playerInvestGroup (p : Player) : String :=
  match p.role with
  | some r => r.investigator_group
  | none => ""

/-- The Sheriff note string of `_resolve_investigations`. -/
def sheriffNoteFor (ps : List Player) (t : Nat) : String :=
  "Sheriff result on " ++ nameAt ps t ++ ": " ++
    (if playerAlignment (nthPlayer ps t) ∈ SHERIFF_SUSPICIOUS_ALIGNMENTS then
      "suspicious" else "innocent") ++ "."

/-- The Investigator note string of `_resolve_investigations`. -/
def investNoteFor (ps : List Player) (t : Nat) : String :=
  "Investigator on " ++ nameAt ps t ++ ": " ++
    (INVESTIGATOR_RESULTS (playerInvestGroup (nthPlayer ps t))).getD
      "Your target\x27s role is unclear."

/-- The Consigliere note string of `_resolve_investigations`. -/
def consigNoteFor (ps : List Player) (t : Nat) : String :=
  "Consigliere learns " ++ nameAt ps t ++ " is " ++
    playerRoleName (nthPlayer ps t) ++ "."

/-- Append a note to the knowledge log of the player at index `i`. -/
def appendNote (ps : List Player) (i : Nat) (note : String) : List Player :=
  modifyAt ps i (fun p => { p with notes := p.notes ++ [note] })

/-- The `key.startswith("sheriff")` guarded append of
`_resolve_investigations`. -/
def sheriffStep (ps : List Player) (key : String) (a t : Nat) : List Player :=
  if strStartsWith key "sheriff" then appendNote ps a (sheriffNoteFor ps t) else ps

/-- The `key.startswith("investigator")` guarded append. -/
def investigatorStep (ps : List Player) (key : String) (a t : Nat) : List Player :=
  if strStartsWith key "investigator" then appendNote ps a (investNoteFor ps t) else ps

/-- The `key.startswith("consigliere")` guarded append. -/
def consigliereStep (ps : List Player) (key : String) (a t : Nat) : List Player :=
  if strStartsWith key "consigliere" then appendNote ps a (consigNoteFor ps t) else ps

/-- One iteration of `_resolve_investigations`: `if not target or not
actor.role: continue`, then the three sequential guarded appends (a key
matches at most one of the three prefixes, and each note is computed from
the player list as it stands at that moment). -/
def investStep (ps : List Player) (ent : NightEntry) : List Player :=
  if entTarget ent = none ∨ (nthPlayer ps (entActor ent)).role = none then ps
  else
    consigliereStep
      (investigatorStep
        (sheriffStep ps (entKey ent) (entActor ent) ((entTarget ent).getD 0))
        (entKey ent) (entActor ent) ((entTarget ent).getD 0))
      (entKey ent) (entActor ent) ((entTarget ent).getD 0)

/-- Mirror of `GameEngine._resolve_investigations`: iterates the action table
in insertion order.  It runs after the liveness update and never consults
`alive`, `jailed` or the roleblocked set. -/
def resolveInvestigations (acts : List NightEntry) (ps : List Player) :
    List Player :=
  acts.foldl investStep ps

/-- The two error kinds of the validation stage.  The source raises
`ValueError` with the given message; the spec names the message
"Illegal move: ..." IllegalMoveError and the "Role hallucination: ..."
messages RosterConsistencyError. -/
inductive NightError where
  | illegalMove : String → NightError
  | rosterConsistency : String → NightError
deriving DecidableEq

/-- Roster of known player names, `{p.name for p in self.state.players}`. -/
def rosterNames (ps : List Player) : List String := ps.map Player.name

/-- Whether an optional target exists and has Mafia faction. -/
def targetFactionIsMafia (ps : List Player) (o : Option Nat) : Bool :=
  match o with
  | some t => factionAt ps t == "Mafia"
  | none => false

/-- Whether an optional target exists and its name is missing from the roster. -/
def targetNotInRoster (ps : List Player) (o : Option Nat) : Bool :=
  match o with
  | some t => !(decide (nameAt ps t ∈ rosterNames ps))
  | none => false

/-- Validation of a single entry, mirroring the loop body of
`_validate_night`: only the literal key `"mafia_kill"` is subject to the
Mafia-targeting check. -/
def validateEntry (ps : List Player) (ent : NightEntry) : Option NightError :=
  if entKey ent = "mafia_kill" ∧ targetFactionIsMafia ps (entTarget ent) = true then
    some (NightError.illegalMove "Illegal move: Mafia attempted to kill Mafia.")
  else if targetNotInRoster ps (entTarget ent) = true then
    some (NightError.rosterConsistency "Role hallucination: Target name not in roster.")
  else if ¬ (nameAt ps (entActor ent) ∈ rosterNames ps) then
    some (NightError.rosterConsistency "Role hallucination: Actor name not in roster.")
  else none

/-- Mirror of `GameEngine._validate_night`: the first failing entry in
iteration order raises; `none` means validation passed. -/
def validateNight (ps : List Player) (acts : List NightEntry) : Option NightError :=
  acts.foldl
    (fun e ent =>
      match e with
      | some er => some er
      | none => validateEntry ps ent)
    none

/-- Everything `_run_night` computes: the final engine plus the transient
night data the claims talk about. -/
structure NightResult where
  engine : Engine
  acts : List NightEntry
  roleblocked : List String
  jailed : Option Nat
  healTarget : Option Nat
  killList : List Nat
  deaths : List Nat
  err : Option NightError

/-- Mirror of `GameEngine._run_night`.  The day counter increments only when
validation passes, because the Python `raise` aborts before `self.state.day
+= 1`; all earlier mutations (deaths, notes, cleans, charge decrements)
persist either way, as in the source. -/
def runNightFull (e : Engine) (ch : Choices) : NightResult :=
  let ps := e.state.players
  let acc0 := loopActions ps ch
  let mpr := mafiaPhase ps e.janitor_cleans ch acc0
  let acc2 := addJailedRoleblock ps mpr.1
  let heal := healTargetOf acc2.actions
  let kd := killDeaths ps acc2.actions acc2.roleblocked heal acc2.jailed
  let edp := execDeath ps acc2.jailed e.jailor_executions
  let deaths := kd ++ edp.1
  let ps1 := applyClean ps acc2.actions deaths
  let ps2 := applyDeaths ps1 deaths
  let ps3 := resolveInvestigations acc2.actions ps2
  let err := validateNight ps3 acc2.actions
  { engine :=
      { state :=
          { players := ps3,
            day := if err = none then e.state.day + 1 else e.state.day,
            phase := "night",
            winners := e.state.winners },
        jailor_executions := edp.2,
        janitor_cleans := mpr.2.2 },
    acts := acc2.actions, roleblocked := acc2.roleblocked, jailed := acc2.jailed,
    healTarget := heal, killList := kd, deaths := deaths, err := err }

/-- The engine state after one night. -/
def runNight (e : Engine) (ch : Choices) : Engine := (runNightFull e ch).engine

/-- Soundness envelope of one target draw: the policies `_random_target`,
`_select_jail_target` and `_select_sheriff_target` only ever return a living
player (or `None`). -/
def targetChoiceOk (ps : List Player) (o : Option Nat) : Bool :=
  match o with
  | none => true
  | some t => decide (t ∈ aliveIdxList ps)

/-- The constraint the source's random draws always satisfy: per-player
targets are living players, and the Mafia kill target is drawn from
`mafia_targets` whenever that draw happens. -/
def ChoicesValid (ps : List Player) (ch : Choices) : Prop :=
  (∀ i ∈ aliveIdxList ps, targetChoiceOk ps (ch.target i) = true) ∧
  (aliveByFactionIdx ps "Mafia" ≠ [] → mafiaTargetsList ps ≠ [] →
    ch.mafiaTarget ∈ mafiaTargetsList ps)

/-- Every player has an assigned role (always true once `_assign_roles` ran;
the Python night code reads `p.role.faction` unguarded and presumes it). -/
def AllRolesAssigned (ps : List Player) : Prop :=
  ∀ i ∈ List.range ps.length, (nthPlayer ps i).role.isSome = true

instance (ps : List Player) (ch : Choices) : Decidable (ChoicesValid ps ch) := by
  unfold ChoicesValid
  infer_instance

instance (ps : List Player) : Decidable (AllRolesAssigned ps) := by
  unfold AllRolesAssigned
  infer_instance

theorem nthPlayer_ge (ps : List Player) (i : Nat) (h : ps.length ≤ i) :
    nthPlayer ps i = defaultPlayer := by
  unfold nthPlayer
  rw [List.getD_eq_getElem?_getD, List.getElem?_eq_none (by omega)]
  rfl

theorem getElem?_eq_nthPlayer (ps : List Player) (i : Nat) (hi : i < ps.length) :
    ps[i]? = some (nthPlayer ps i) := by
  unfold nthPlayer
  rw [List.getD_eq_getElem?_getD, List.getElem?_eq_getElem hi]
  rfl

/-- `qs` agrees with `ps` on length, name, role, alive and cleaned of every
player, and every old note is still present: what a pass of
`_resolve_investigations` guarantees. -/
def CorePlus (ps qs : List Player) : Prop :=
  qs.length = ps.length ∧
  ∀ i, (nthPlayer qs i).name = (nthPlayer ps i).name ∧
    (nthPlayer qs i).role = (nthPlayer ps i).role ∧
    (nthPlayer qs i).alive = (nthPlayer ps i).alive ∧
    (nthPlayer qs i).cleaned = (nthPlayer ps i).cleaned ∧
    ∀ x ∈ (nthPlayer ps i).notes, x ∈ (nthPlayer qs i).notes

/-- `qs` agrees with `ps` on length and every player's name and role: what
every mutation of the night pipeline guarantees. -/
def NamesRoles (ps qs : List Player) : Prop :=
  qs.length = ps.length ∧
  ∀ i, (nthPlayer qs i).name = (nthPlayer ps i).name ∧
    (nthPlayer qs i).role = (nthPlayer ps i).role

theorem CorePlus.namesRoles (ps qs : List Player) (h : CorePlus ps qs) :
    NamesRoles ps qs :=
  ⟨h.1, fun i => ⟨(h.2 i).1, (h.2 i).2.1⟩⟩

theorem corePlus_refl (ps : List Player) : CorePlus ps ps :=
  ⟨rfl, fun _ => ⟨rfl, rfl, rfl, rfl, fun _ hx => hx⟩⟩

theorem corePlus_trans (ps qs rs : List Player) (h1 : CorePlus ps qs)
    (h2 : CorePlus qs rs) : CorePlus ps rs := by
  refine ⟨h2.1.trans h1.1, fun i => ?_⟩
  obtain ⟨a1, b1, c1, d1, e1⟩ := h1.2 i
  obtain ⟨a2, b2, c2, d2, e2⟩ := h2.2 i
  exact ⟨a2.trans a1, b2.trans b1, c2.trans c1, d2.trans d1,
    fun x hx => e2 x (e1 x hx)⟩

theorem namesRoles_refl (ps : List Player) : NamesRoles ps ps :=
  ⟨rfl, fun _ => ⟨rfl, rfl⟩⟩

theorem namesRoles_trans (ps qs rs : List Player) (h1 : NamesRoles ps qs)
    (h2 : NamesRoles qs rs) : NamesRoles ps rs :=
  ⟨h2.1.trans h1.1, fun i =>
    ⟨((h2.2 i).1).trans ((h1.2 i).1), ((h2.2 i).2).trans ((h1.2 i).2)⟩⟩

theorem appendNote_length (ps : List Player) (j : Nat) (note : String) :
    (appendNote ps j note).length = ps.length := modifyAt_length ps j _

theorem corePlus_appendNote (ps : List Player) (j : Nat) (note : String) :
    CorePlus ps (appendNote ps j note) := by
  refine ⟨appendNote_length ps j note, fun i => ?_⟩
  unfold appendNote
  rw [nthPlayer_modifyAt]
  by_cases h : j = i ∧ i < ps.length
  · rw [if_pos h]
    exact ⟨rfl, rfl, rfl, rfl, fun x hx => List.mem_append_left _ hx⟩
  · rw [if_neg h]
    exact ⟨rfl, rfl, rfl, rfl, fun _ hx => hx⟩

theorem corePlus_ite_appendNote (ps : List Player) (c : Prop) [Decidable c]
    (a : Nat) (n : String) : CorePlus ps (if c then appendNote ps a n else ps) := by
  by_cases h : c
  · rw [if_pos h]; exact corePlus_appendNote _ _ _
  · rw [if_neg h]; exact corePlus_refl ps

theorem corePlus_sheriffStep (ps : List Player) (key : String) (a t : Nat) :
    CorePlus ps (sheriffStep ps key a t) :=
  corePlus_ite_appendNote ps _ a _

theorem corePlus_investigatorStep (ps : List Player) (key : String) (a t : Nat) :
    CorePlus ps (investigatorStep ps key a t) :=
  corePlus_ite_appendNote ps _ a _

theorem corePlus_consigliereStep (ps : List Player) (key : String) (a t : Nat) :
    CorePlus ps (consigliereStep ps key a t) :=
  corePlus_ite_appendNote ps _ a _

theorem corePlus_investStep (ps : List Player) (ent : NightEntry) :
    CorePlus ps (investStep ps ent) := by
  unfold investStep
  by_cases h : entTarget ent = none ∨ (nthPlayer ps (entActor ent)).role = none
  · rw [if_pos h]
    exact corePlus_refl ps
  · rw [if_neg h]
    exact corePlus_trans _ _ _
      (corePlus_trans _ _ _
        (corePlus_sheriffStep ps (entKey ent) (entActor ent) ((entTarget ent).getD 0))
        (corePlus_investigatorStep _ (entKey ent) (entActor ent) ((entTarget ent).getD 0)))
      (corePlus_consigliereStep _ (entKey ent) (entActor ent) ((entTarget ent).getD 0))

theorem corePlus_resolveInvestigations (acts : List NightEntry) (ps : List Player) :
    CorePlus ps (resolveInvestigations acts ps) := by
  unfold resolveInvestigations
  induction acts generalizing ps with
  | nil => exact corePlus_refl ps
  | cons ent rest ih =>
    simp only [List.foldl_cons]
    exact corePlus_trans _ _ _ (corePlus_investStep ps ent) (ih (investStep ps ent))

theorem applyClean_fields (ps : List Player) (acts : List NightEntry)
    (deaths : List Nat) :
    (applyClean ps acts deaths).length = ps.length ∧
    ∀ i, (nthPlayer (applyClean ps acts deaths) i).name = (nthPlayer ps i).name ∧
      (nthPlayer (applyClean ps acts deaths) i).role = (nthPlayer ps i).role ∧
      (nthPlayer (applyClean ps acts deaths) i).alive = (nthPlayer ps i).alive ∧
      (nthPlayer (applyClean ps acts deaths) i).notes = (nthPlayer ps i).notes := by
  unfold applyClean
  by_cases hout : dictMem acts "janitor_clean" = true ∧ deaths ≠ []
  · rw [if_pos hout]
    split
    · rename_i b u heq
      by_cases hu : u ∈ deaths
      · rw [if_pos hu]
        refine ⟨modifyAt_length _ _ _, fun i => ?_⟩
        rw [nthPlayer_modifyAt]
        by_cases h : u = i ∧ i < ps.length
        · rw [if_pos h]; exact ⟨rfl, rfl, rfl, rfl⟩
        · rw [if_neg h]; exact ⟨rfl, rfl, rfl, rfl⟩
      · rw [if_neg hu]
        exact ⟨rfl, fun i => ⟨rfl, rfl, rfl, rfl⟩⟩
    · exact ⟨rfl, fun i => ⟨rfl, rfl, rfl, rfl⟩⟩
  · rw [if_neg hout]
    exact ⟨rfl, fun i => ⟨rfl, rfl, rfl, rfl⟩⟩

theorem applyDeaths_fields (ps : List Player) (deaths : List Nat) :
    (applyDeaths ps deaths).length = ps.length ∧
    ∀ i, (nthPlayer (applyDeaths ps deaths) i).name = (nthPlayer ps i).name ∧
      (nthPlayer (applyDeaths ps deaths) i).role = (nthPlayer ps i).role ∧
      (nthPlayer (applyDeaths ps deaths) i).notes = (nthPlayer ps i).notes ∧
      (nthPlayer (applyDeaths ps deaths) i).cleaned = (nthPlayer ps i).cleaned := by
  unfold applyDeaths
  induction deaths generalizing ps with
  | nil => exact ⟨rfl, fun i => ⟨rfl, rfl, rfl, rfl⟩⟩
  | cons d rest ih =>
    simp only [List.foldl_cons]
    obtain ⟨hlen, hf⟩ := ih (modifyAt ps d (fun p => { p with alive := false }))
    refine ⟨hlen.trans (modifyAt_length _ _ _), fun i => ?_⟩
    obtain ⟨h1, h2, h3, h4⟩ := hf i
    rw [h1, h2, h3, h4, nthPlayer_modifyAt]
    by_cases h : d = i ∧ i < ps.length
    · rw [if_pos h]; exact ⟨rfl, rfl, rfl, rfl⟩
    · rw [if_neg h]; exact ⟨rfl, rfl, rfl, rfl⟩

theorem applyDeaths_alive (ps : List Player) (deaths : List Nat) (i : Nat)
    (hi : i < ps.length) :
    (nthPlayer (applyDeaths ps deaths) i).alive =
      ((nthPlayer ps i).alive && !(decide (i ∈ deaths))) := by
  unfold applyDeaths
  induction deaths generalizing ps with
  | nil => simp
  | cons d rest ih =>
    simp only [List.foldl_cons]
    have hlen : i < (modifyAt ps d (fun p => { p with alive := false })).length := by
      rw [modifyAt_length]; exact hi
    have := ih (modifyAt ps d (fun p => { p with alive := false })) hlen
    rw [this, nthPlayer_modifyAt]
    by_cases h : d = i ∧ i < ps.length
    · rw [if_pos h]
      have : i ∈ d :: rest := by rw [h.1]; exact List.mem_cons_self _ _
      simp [this]
    · rw [if_neg h]
      have hdi : d ≠ i := fun hc => h ⟨hc, hi⟩
      by_cases hm : i ∈ rest
      · simp [hm, List.mem_cons, hm]
      · have : ¬ i ∈ d :: rest := by
          intro hc
          rcases List.mem_cons.mp hc with hc | hc
          · exact hdi hc.symm
          · exact hm hc
        simp [this, hm]

theorem namesRoles_applyClean (ps : List Player) (acts : List NightEntry)
    (deaths : List Nat) : NamesRoles ps (applyClean ps acts deaths) := by
  obtain ⟨hlen, hf⟩ := applyClean_fields ps acts deaths
  exact ⟨hlen, fun i => ⟨(hf i).1, (hf i).2.1⟩⟩

theorem namesRoles_applyDeaths (ps : List Player) (deaths : List Nat) :
    NamesRoles ps (applyDeaths ps deaths) := by
  obtain ⟨hlen, hf⟩ := applyDeaths_fields ps deaths
  exact ⟨hlen, fun i => ⟨(hf i).1, (hf i).2.1⟩⟩

theorem rosterNames_congr (ps qs : List Player) (h : NamesRoles ps qs) :
    rosterNames qs = rosterNames ps := by
  apply List.ext_getElem?
  intro i
  unfold rosterNames
  rw [List.getElem?_map, List.getElem?_map]
  by_cases hi : i < ps.length
  · have hi2 : i < qs.length := by rw [h.1]; exact hi
    rw [getElem?_eq_nthPlayer ps i hi, getElem?_eq_nthPlayer qs i hi2]
    simp [(h.2 i).1]
  · have h1 : ps.length ≤ i := by omega
    have h2 : qs.length ≤ i := by rw [h.1]; omega
    rw [List.getElem?_eq_none h1, List.getElem?_eq_none h2]

theorem dictInsert_mem_self (l : List NightEntry) (k : String) (v : Nat × Option Nat) :
    (k, v) ∈ dictInsert l k v := by
  unfold dictInsert
  by_cases h : l.any (fun ent => entKey ent = k)
  · rw [if_pos h]
    obtain ⟨ent, hent, hk⟩ := List.any_eq_true.mp h
    refine List.mem_map.mpr ⟨ent, hent, ?_⟩
    rw [if_pos (of_decide_eq_true hk)]
  · rw [if_neg h]
    exact List.mem_append_right _ (List.mem_singleton.mpr rfl)

theorem dictInsert_mem_of_ne (l : List NightEntry) (k' : String) (v' : Nat × Option Nat)
    (k : String) (v : Nat × Option Nat) (hne : k' ≠ k) (hmem : (k, v) ∈ l) :
    (k, v) ∈ dictInsert l k' v' := by
  unfold dictInsert
  by_cases h : l.any (fun ent => entKey ent = k')
  · rw [if_pos h]
    refine List.mem_map.mpr ⟨(k, v), hmem, ?_⟩
    rw [if_neg]
    intro hc
    exact hne hc.symm
  · rw [if_neg h]
    exact List.mem_append_left _ hmem

theorem dictInsert_sub (l : List NightEntry) (k : String) (v : Nat × Option Nat)
    (ent : NightEntry) (h : ent ∈ dictInsert l k v) : ent ∈ l ∨ ent = (k, v) := by
  unfold dictInsert at h
  by_cases ha : l.any (fun e => entKey e = k)
  · rw [if_pos ha] at h
    obtain ⟨orig, horig, himg⟩ := List.mem_map.mp h
    by_cases hk : entKey orig = k
    · rw [if_pos hk] at himg
      right
      exact himg.symm
    · rw [if_neg hk] at himg
      left
      rw [← himg]
      exact horig
  · rw [if_neg ha] at h
    rcases List.mem_append.mp h with h | h
    · left; exact h
    · right; exact List.mem_singleton.mp h

theorem dictGet_mem (l : List NightEntry) (k : String) (v : Nat × Option Nat)
    (h : dictGet l k = some v) : (k, v) ∈ l := by
  unfold dictGet at h
  cases hf : l.find? (fun ent => entKey ent = k) with
  | none => rw [hf] at h; simp at h
  | some ent =>
    rw [hf] at h
    have h2 : ent.2 = v := by simpa using h
    have hm := List.mem_of_find?_eq_some hf
    have hpred : decide (entKey ent = k) = true := by
      have h3 := List.find?_some hf
      simpa using h3
    have hk : entKey ent = k := of_decide_eq_true hpred
    have hent : ent = (k, v) := by
      obtain ⟨k0, v0⟩ := ent
      simp only [entKey] at hk
      simp only at h2
      rw [hk, h2]
    rw [← hent]
    exact hm

theorem dictGet_isMem (l : List NightEntry) (k : String) (v : Nat × Option Nat)
    (h : dictGet l k = some v) : dictMem l k = true := by
  unfold dictGet at h
  unfold dictMem
  cases hf : l.find? (fun ent => entKey ent = k) with
  | none => rw [hf] at h; simp at h
  | some ent =>
    refine List.any_eq_true.mpr ⟨ent, List.mem_of_find?_eq_some hf, ?_⟩
    simpa using List.find?_some hf

theorem strApp_ne (p s t : String) (h : (t.data).take p.data.length ≠ p.data) :
    p ++ s ≠ t := by
  intro hc
  have h2 := congrArg String.data hc
  rw [String.data_append] at h2
  apply h
  rw [← h2]
  exact List.take_left p.data s.data

theorem strApp_left_cancel (p a b : String) (h : p ++ a = p ++ b) : a = b := by
  have h2 := congrArg String.data h
  rw [String.data_append, String.data_append] at h2
  exact String.ext (List.append_cancel_left h2)

theorem strApp_head_ne (p q a b : String) (c d : Char) (hp : p.data.head? = some c)
    (hq : q.data.head? = some d) (hne : c ≠ d) : p ++ a ≠ q ++ b := by
  intro hc
  have h2 := congrArg String.data hc
  rw [String.data_append, String.data_append] at h2
  have h3 : (p.data ++ a.data).head? = some c := by
    obtain ⟨x, xs, hxp⟩ : ∃ x xs, p.data = x :: xs := by
      cases hp2 : p.data with
      | nil => rw [hp2] at hp; simp at hp
      | cons x xs => exact ⟨x, xs, rfl⟩
    rw [hxp] at hp
    simp only [List.head?_cons] at hp
    rw [hxp]
    simp [hp]
  have h4 : (q.data ++ b.data).head? = some d := by
    obtain ⟨x, xs, hxq⟩ : ∃ x xs, q.data = x :: xs := by
      cases hq2 : q.data with
      | nil => rw [hq2] at hq; simp at hq
      | cons x xs => exact ⟨x, xs, rfl⟩
    rw [hxq] at hq
    simp only [List.head?_cons] at hq
    rw [hxq]
    simp [hq]
  rw [h2, h4] at h3
  injection h3 with h3
  exact hne h3.symm

theorem strStartsWith_of_append (q p s : String) (h : q.data <+: p.data) :
    strStartsWith (p ++ s) q = true := by
  unfold strStartsWith
  rw [String.data_append, List.isPrefixOf_iff_prefix]
  exact h.trans (List.prefix_append _ _)

theorem startsWith_sheriff_excl (k : String) (h : strStartsWith k "sheriff" = true) :
    strStartsWith k "investigator" = false ∧ strStartsWith k "consigliere" = false := by
  unfold strStartsWith at *
  rw [List.isPrefixOf_iff_prefix] at h
  obtain ⟨rest, hrest⟩ := h
  constructor
  · rw [Bool.eq_false_iff]
    intro hpre
    rw [List.isPrefixOf_iff_prefix] at hpre
    obtain ⟨r2, h2⟩ := hpre
    have h3 := congrArg List.head? (h2.trans hrest.symm)
    simp at h3
  · rw [Bool.eq_false_iff]
    intro hpre
    rw [List.isPrefixOf_iff_prefix] at hpre
    obtain ⟨r2, h2⟩ := hpre
    have h3 := congrArg List.head? (h2.trans hrest.symm)
    simp at h3

theorem startsWith_investigator_excl (k : String)
    (h : strStartsWith k "investigator" = true) :
    strStartsWith k "sheriff" = false ∧ strStartsWith k "consigliere" = false := by
  unfold strStartsWith at *
  rw [List.isPrefixOf_iff_prefix] at h
  obtain ⟨rest, hrest⟩ := h
  constructor
  · rw [Bool.eq_false_iff]
    intro hpre
    rw [List.isPrefixOf_iff_prefix] at hpre
    obtain ⟨r2, h2⟩ := hpre
    have h3 := congrArg List.head? (h2.trans hrest.symm)
    simp at h3
  · rw [Bool.eq_false_iff]
    intro hpre
    rw [List.isPrefixOf_iff_prefix] at hpre
    obtain ⟨r2, h2⟩ := hpre
    have h3 := congrArg List.head? (h2.trans hrest.symm)
    simp at h3

theorem runNightFull_killList (e : Engine) (ch : Choices) :
    (runNightFull e ch).killList =
      killDeaths e.state.players (runNightFull e ch).acts
        (runNightFull e ch).roleblocked (runNightFull e ch).healTarget
        (runNightFull e ch).jailed := rfl

theorem runNightFull_players (e : Engine) (ch : Choices) :
    (runNightFull e ch).engine.state.players =
      resolveInvestigations (runNightFull e ch).acts
        (applyDeaths
          (applyClean e.state.players (runNightFull e ch).acts
            (runNightFull e ch).deaths)
          (runNightFull e ch).deaths) := rfl

theorem runNightFull_deaths (e : Engine) (ch : Choices) :
    (runNightFull e ch).deaths =
      (runNightFull e ch).killList ++
        (execDeath e.state.players (runNightFull e ch).jailed e.jailor_executions).1 :=
  rfl

theorem killDeaths_iff (ps : List Player) (acts : List NightEntry) (rb : List String)
    (heal jailed : Option Nat) (a t : Nat)
    (hk : dictGet acts "mafia_kill" = some (a, some t)) :
    t ∈ killDeaths ps acts rb heal jailed ↔
      (¬ nameAt ps t ∈ rb ∧ heal ≠ some t ∧ jailed ≠ some t) := by
  unfold killDeaths
  rw [hk]
  show t ∈ (if nameAt ps t ∈ rb then ([] : List Nat)
    else if heal ≠ some t ∧ jailed ≠ some t then [t] else []) ↔ _
  by_cases h1 : nameAt ps t ∈ rb
  · rw [if_pos h1]
    simp [h1]
  · rw [if_neg h1]
    by_cases h2 : heal ≠ some t ∧ jailed ≠ some t
    · rw [if_pos h2]
      simp [h1, h2.1, h2.2]
    · rw [if_neg h2]
      simp only [List.not_mem_nil, false_iff]
      intro hc
      exact h2 ⟨hc.2.1, hc.2.2⟩

theorem night_kill_member_dead (e : Engine) (ch : Choices) (t : Nat)
    (ht : t < e.state.players.length) (hmem : t ∈ (runNightFull e ch).deaths) :
    (nthPlayer (runNightFull e ch).engine.state.players t).alive = false := by
  rw [runNightFull_players]
  have hinv := (corePlus_resolveInvestigations (runNightFull e ch).acts
    (applyDeaths
      (applyClean e.state.players (runNightFull e ch).acts (runNightFull e ch).deaths)
      (runNightFull e ch).deaths)).2 t
  rw [hinv.2.2.1]
  have hlen1 : t < (applyClean e.state.players (runNightFull e ch).acts
      (runNightFull e ch).deaths).length := by
    rw [(applyClean_fields e.state.players (runNightFull e ch).acts
      (runNightFull e ch).deaths).1]
    exact ht
  rw [applyDeaths_alive _ _ t hlen1]
  simp [hmem]

/-- C1: during night resolution the Mafia kill produces its target's death
iff the target's name is not in the roleblocked set, the target is not the
Doctor's heal target, and the target is not the jailed player.  In
particular a healed kill target and a jailed kill target never die from the
kill; the jailed player may still die from the separate Jailor execution,
which the night's death list `deaths = killList ++ execution deaths` keeps
apart from the kill.  The final conjunct ties the kill to the liveness
update: a kill victim's alive flag is false after the night. -/
theorem mafiaKill_resolution_iff (e : Engine) (ch : Choices) (a t : Nat)
    (hk : dictGet (runNightFull e ch).acts "mafia_kill" = some (a, some t)) :
    (t ∈ (runNightFull e ch).killList ↔
      (¬ nameAt e.state.players t ∈ (runNightFull e ch).roleblocked ∧
        (runNightFull e ch).healTarget ≠ some t ∧
        (runNightFull e ch).jailed ≠ some t)) ∧
    ((runNightFull e ch).healTarget = some t → ¬ t ∈ (runNightFull e ch).killList) ∧
    ((runNightFull e ch).jailed = some t → ¬ t ∈ (runNightFull e ch).killList) ∧
    (t < e.state.players.length → t ∈ (runNightFull e ch).killList →
      (nthPlayer (runNightFull e ch).engine.state.players t).alive = false) := by
  have hmain : t ∈ (runNightFull e ch).killList ↔
      (¬ nameAt e.state.players t ∈ (runNightFull e ch).roleblocked ∧
        (runNightFull e ch).healTarget ≠ some t ∧
        (runNightFull e ch).jailed ≠ some t) := by
    rw [runNightFull_killList]
    exact killDeaths_iff _ _ _ _ _ a t hk
  refine ⟨hmain, ?_, ?_, ?_⟩
  · intro hheal hmem
    exact ((hmain.mp hmem).2.1) hheal
  · intro hjail hmem
    exact ((hmain.mp hmem).2.2) hjail
  · intro ht hmem
    exact night_kill_member_dead e ch t ht
      (by rw [runNightFull_deaths]; exact List.mem_append_left _ hmem)

/-- Concrete engine for the kill-resolution witness: a Godfather and two
Townies, no Doctor, Escort or Jailor. -/
def wC1Engine : Engine :=
  { state := { players := [mkRolePlayer "Greg" godfatherRole,
      mkRolePlayer "Tom" townieRole, mkRolePlayer "Ann" townieRole] } }

/-- Choices for the kill-resolution witness: the Mafia picks player 1. -/
def wC1Choices : Choices := { target := fun _ => none, mafiaTarget := 1 }

/-- Witness for the kill-resolution claim at a concrete night. -/
theorem mafiaKill_resolution_iff_w :
    (1 ∈ (runNightFull wC1Engine wC1Choices).killList ↔
      (¬ nameAt wC1Engine.state.players 1 ∈ (runNightFull wC1Engine wC1Choices).roleblocked ∧
        (runNightFull wC1Engine wC1Choices).healTarget ≠ some 1 ∧
        (runNightFull wC1Engine wC1Choices).jailed ≠ some 1)) ∧
    ((runNightFull wC1Engine wC1Choices).healTarget = some 1 →
      ¬ 1 ∈ (runNightFull wC1Engine wC1Choices).killList) ∧
    ((runNightFull wC1Engine wC1Choices).jailed = some 1 →
      ¬ 1 ∈ (runNightFull wC1Engine wC1Choices).killList) ∧
    (1 < wC1Engine.state.players.length →
      1 ∈ (runNightFull wC1Engine wC1Choices).killList →
      (nthPlayer (runNightFull wC1Engine wC1Choices).engine.state.players 1).alive = false) :=
  mafiaKill_resolution_iff wC1Engine wC1Choices 0 1 (by decide)

/-- Concrete engine for the roleblocked-actor counterexample: an Escort, a
Godfather, a Janitor and a Townie. -/
def cexC3Engine : Engine :=
  { state := { players := [mkRolePlayer "Ann" escortRole,
      mkRolePlayer "Greg" godfatherRole, mkRolePlayer "Jan" janitorRole,
      mkRolePlayer "Tom" townieRole] } }

/-- Choices for the roleblocked-actor counterexample: the Escort roleblocks
the Godfather (index 1, the first living Mafia member and thus the recorded
actor of both `mafia_kill` and `janitor_clean`); the Mafia picks the Townie. -/
def cexC3Choices : Choices :=
  { target := fun i => if i = 0 then some 1 else none, mafiaTarget := 3 }

/-- C3 counterexample: the recorded actor of `mafia_kill` (and of
`janitor_clean`) is in the night's roleblocked set, yet the kill still
produces its death and the body is still marked cleaned — roleblocking a
player does not make that player's own kill or clean inert.  The choices are
policy-reachable (`ChoicesValid`). -/
theorem roleblockedActor_cex :
    dictGet (runNightFull cexC3Engine cexC3Choices).acts "mafia_kill"
      = some (1, some 3) ∧
    dictGet (runNightFull cexC3Engine cexC3Choices).acts "janitor_clean"
      = some (1, some 3) ∧
    nameAt cexC3Engine.state.players 1 ∈ (runNightFull cexC3Engine cexC3Choices).roleblocked ∧
    (runNightFull cexC3Engine cexC3Choices).killList = [3] ∧
    (nthPlayer (runNightFull cexC3Engine cexC3Choices).engine.state.players 3).alive
      = false ∧
    (nthPlayer (runNightFull cexC3Engine cexC3Choices).engine.state.players 3).cleaned
      = true ∧
    ChoicesValid cexC3Engine.state.players cexC3Choices := by decide

theorem applyClean_cleaned (ps : List Player) (acts : List NightEntry)
    (deaths : List Nat) (b u : Nat)
    (hg : dictGet acts "janitor_clean" = some (b, some u)) (hu : u ∈ deaths)
    (hlen : u < ps.length) :
    (nthPlayer (applyClean ps acts deaths) u).cleaned = true := by
  unfold applyClean
  rw [if_pos ⟨dictGet_isMem _ _ _ hg, by
    intro hc
    rw [hc] at hu
    exact absurd hu (List.not_mem_nil u)⟩]
  rw [hg]
  show (nthPlayer (if u ∈ deaths then
    modifyAt ps u (fun p => { p with cleaned := true }) else ps) u).cleaned = true
  rw [if_pos hu, nthPlayer_modifyAt, if_pos ⟨rfl, hlen⟩]

/-- C3 amended: the roleblocked set influences resolution only through the
kill TARGET's name.  Whenever the target-side conditions hold the kill
produces the death, with no reference to the recorded actor (who may well be
roleblocked, as the counterexample shows); and the janitor clean marks the
body whenever the clean's target is among the night's deaths, again with no
reference to the roleblocked set or the actor. -/
theorem roleblock_target_only (e : Engine) (ch : Choices) :
    (∀ a t, dictGet (runNightFull e ch).acts "mafia_kill" = some (a, some t) →
      ¬ nameAt e.state.players t ∈ (runNightFull e ch).roleblocked →
      (runNightFull e ch).healTarget ≠ some t →
      (runNightFull e ch).jailed ≠ some t →
      t ∈ (runNightFull e ch).killList) ∧
    (∀ b u, dictGet (runNightFull e ch).acts "janitor_clean" = some (b, some u) →
      u ∈ (runNightFull e ch).deaths → u < e.state.players.length →
      (nthPlayer (runNightFull e ch).engine.state.players u).cleaned = true) := by
  constructor
  · intro a t hk h1 h2 h3
    rw [runNightFull_killList]
    exact (killDeaths_iff _ _ _ _ _ a t hk).mpr ⟨h1, h2, h3⟩
  · intro b u hg hu hlen
    rw [runNightFull_players]
    have hinv := (corePlus_resolveInvestigations (runNightFull e ch).acts
      (applyDeaths
        (applyClean e.state.players (runNightFull e ch).acts (runNightFull e ch).deaths)
        (runNightFull e ch).deaths)).2 u
    rw [hinv.2.2.2.1]
    have hfd := (applyDeaths_fields
      (applyClean e.state.players (runNightFull e ch).acts (runNightFull e ch).deaths)
      (runNightFull e ch).deaths).2 u
    rw [hfd.2.2.2]
    exact applyClean_cleaned _ _ _ b u hg hu hlen

/-- Witness for the amended roleblock claim at the counterexample night. -/
theorem roleblock_target_only_w :
    3 ∈ (runNightFull cexC3Engine cexC3Choices).killList ∧
    (nthPlayer (runNightFull cexC3Engine cexC3Choices).engine.state.players 3).cleaned
      = true :=
  ⟨(roleblock_target_only cexC3Engine cexC3Choices).1 1 3 (by decide) (by decide)
      (by decide) (by decide),
    (roleblock_target_only cexC3Engine cexC3Choices).2 1 3 (by decide) (by decide)
      (by decide)⟩

theorem validateFold_some (l : List NightEntry) (ps : List Player) (er : NightError) :
    l.foldl
      (fun e ent =>
        match e with
        | some x => some x
        | none => validateEntry ps ent)
      (some er) = some er := by
  induction l with
  | nil => rfl
  | cons ent rest ih =>
    simp only [List.foldl_cons]
    exact ih

theorem validateNight_cons (ps : List Player) (ent : NightEntry)
    (rest : List NightEntry) :
    validateNight ps (ent :: rest) =
      match validateEntry ps ent with
      | some er => some er
      | none => validateNight ps rest := by
  unfold validateNight
  simp only [List.foldl_cons]
  cases validateEntry ps ent with
  | some er => exact validateFold_some rest ps er
  | none => rfl

theorem validateEntry_roster_ok (ps : List Player) (ent : NightEntry)
    (h1 : nameAt ps (entActor ent) ∈ rosterNames ps)
    (h2 : targetNotInRoster ps (entTarget ent) = false) :
    validateEntry ps ent =
      if entKey ent = "mafia_kill" ∧ targetFactionIsMafia ps (entTarget ent) = true
      then some (NightError.illegalMove "Illegal move: Mafia attempted to kill Mafia.")
      else none := by
  unfold validateEntry
  by_cases hc : entKey ent = "mafia_kill" ∧ targetFactionIsMafia ps (entTarget ent) = true
  · rw [if_pos hc, if_pos hc]
  · rw [if_neg hc, if_neg hc, if_neg (by rw [h2]; simp), if_neg (by simp [h1])]

/-- C2 amended: on an action table whose names all lie in the roster,
validation raises the IllegalMoveError kind iff the table holds an entry
KEYED `"mafia_kill"` with a Mafia-faction target; the actor's faction and
every other key (e.g. a Consigliere investigating a fellow Mafia member) are
never checked, so such tables validate cleanly. -/
theorem validateNight_illegalMove_iff (ps : List Player) (acts : List NightEntry)
    (hro : ∀ ent ∈ acts, nameAt ps (entActor ent) ∈ rosterNames ps ∧
      targetNotInRoster ps (entTarget ent) = false) :
    (validateNight ps acts =
        some (NightError.illegalMove "Illegal move: Mafia attempted to kill Mafia.") ↔
      ∃ ent ∈ acts, entKey ent = "mafia_kill" ∧
        targetFactionIsMafia ps (entTarget ent) = true) ∧
    (validateNight ps acts = none ↔
      ¬ ∃ ent ∈ acts, entKey ent = "mafia_kill" ∧
        targetFactionIsMafia ps (entTarget ent) = true) := by
  induction acts with
  | nil =>
    constructor
    · simp [validateNight]
    · simp [validateNight]
  | cons ent rest ih =>
    have hhead := hro ent (List.mem_cons_self ent rest)
    have htail := ih (fun x hx => hro x (List.mem_cons_of_mem ent hx))
    rw [validateNight_cons, validateEntry_roster_ok ps ent hhead.1 hhead.2]
    by_cases hbad : entKey ent = "mafia_kill" ∧
        targetFactionIsMafia ps (entTarget ent) = true
    · rw [if_pos hbad]
      constructor
      · simp only [true_iff]
        exact ⟨ent, List.mem_cons_self ent rest, hbad⟩
      · simp only [reduceCtorEq, false_iff, not_not]
        exact ⟨ent, List.mem_cons_self ent rest, hbad⟩
    · rw [if_neg hbad]
      constructor
      · rw [htail.1]
        constructor
        · rintro ⟨x, hx, hx2⟩
          exact ⟨x, List.mem_cons_of_mem ent hx, hx2⟩
        · rintro ⟨x, hx, hx2⟩
          rcases List.mem_cons.mp hx with hx | hx
          · rw [hx] at hx2; exact absurd hx2 hbad
          · exact ⟨x, hx, hx2⟩
      · rw [htail.2]
        constructor
        · intro hc ⟨x, hx, hx2⟩
          rcases List.mem_cons.mp hx with hx | hx
          · rw [hx] at hx2; exact absurd hx2 hbad
          · exact hc ⟨x, hx, hx2⟩
        · intro hc ⟨x, hx, hx2⟩
          exact hc ⟨x, List.mem_cons_of_mem ent hx, hx2⟩

/-- Concrete engine for the Mafia-targets-Mafia counterexample: a Godfather,
a Consigliere and a Townie. -/
def cexC2Engine : Engine :=
  { state := { players := [mkRolePlayer "Greg" godfatherRole,
      mkRolePlayer "Con" consigliereRole, mkRolePlayer "Tom" townieRole] } }

/-- Choices for the Mafia-targets-Mafia counterexample: the Consigliere
investigates the Godfather (a fellow Mafia member), the Mafia kill picks the
Townie. -/
def cexC2Choices : Choices :=
  { target := fun i => if i = 1 then some 0 else none, mafiaTarget := 2 }

/-- C2 counterexample: the resolved action table contains an action whose
actor (the Consigliere, index 1) and target (the Godfather, index 0) are both
Mafia-faction, yet night validation completes normally (`err = none`) instead
of raising IllegalMoveError — the validation loop only checks the literal
`"mafia_kill"` key.  The choices are policy-reachable (`ChoicesValid`). -/
theorem mafiaTargetsMafia_cex :
    ("consigliere-Con", 1, some 0) ∈ (runNightFull cexC2Engine cexC2Choices).acts ∧
    factionAt cexC2Engine.state.players 1 = "Mafia" ∧
    factionAt cexC2Engine.state.players 0 = "Mafia" ∧
    (runNightFull cexC2Engine cexC2Choices).err = none ∧
    ChoicesValid cexC2Engine.state.players cexC2Choices := by decide

/-- Concrete roster and doctored action table for the amended-validation
witness: a `mafia_kill` entry targeting a Mafia player raises IllegalMove. -/
def wC2Players : List Player :=
  [mkRolePlayer "Greg" godfatherRole, mkRolePlayer "Tom" townieRole]

/-- Doctored table with the kill aimed at the Godfather himself. -/
def wC2Acts : List NightEntry := [("mafia_kill", 0, some 0)]

/-- Witness for the amended validation claim at a concrete table. -/
theorem validateNight_illegalMove_iff_w :
    (validateNight wC2Players wC2Acts =
        some (NightError.illegalMove "Illegal move: Mafia attempted to kill Mafia.") ↔
      ∃ ent ∈ wC2Acts, entKey ent = "mafia_kill" ∧
        targetFactionIsMafia wC2Players (entTarget ent) = true) ∧
    (validateNight wC2Players wC2Acts = none ↔
      ¬ ∃ ent ∈ wC2Acts, entKey ent = "mafia_kill" ∧
        targetFactionIsMafia wC2Players (entTarget ent) = true) :=
  validateNight_illegalMove_iff wC2Players wC2Acts (by decide)

/-- Bounds and faction constraint every resolved entry satisfies when the
table is built by the engine's own flow. -/
def EntryOk (ps : List Player) (ent : NightEntry) : Prop :=
  entActor ent < ps.length ∧
  (∀ t, entTarget ent = some t → t < ps.length) ∧
  (entKey ent = "mafia_kill" → ∀ t, entTarget ent = some t → t ∈ mafiaTargetsList ps)

/-- During the collection loop no entry is keyed `"mafia_kill"` at all. -/
def LoopEntryOk (ps : List Player) (ent : NightEntry) : Prop :=
  entActor ent < ps.length ∧
  (∀ t, entTarget ent = some t → t < ps.length) ∧
  entKey ent ≠ "mafia_kill"

theorem loopEntryOk_entryOk (ps : List Player) (ent : NightEntry)
    (h : LoopEntryOk ps ent) : EntryOk ps ent :=
  ⟨h.1, h.2.1, fun hk => absurd hk h.2.2⟩

theorem mem_aliveIdx_lt (ps : List Player) (i : Nat) (h : i ∈ aliveIdxList ps) :
    i < ps.length :=
  List.mem_range.mp (List.mem_of_mem_filter h)

theorem mem_mafiaTargets_lt (ps : List Player) (t : Nat)
    (h : t ∈ mafiaTargetsList ps) : t < ps.length :=
  mem_aliveIdx_lt ps t (List.mem_of_mem_filter h)

theorem mem_mafiaTargets_faction (ps : List Player) (t : Nat)
    (h : t ∈ mafiaTargetsList ps) : ¬ factionAt ps t = "Mafia" := by
  unfold mafiaTargetsList at h
  simpa using List.of_mem_filter h

theorem mem_aliveByFaction_lt (ps : List Player) (f : String) (i : Nat)
    (h : i ∈ aliveByFactionIdx ps f) : i < ps.length :=
  mem_aliveIdx_lt ps i (List.mem_of_mem_filter h)

theorem name_mem_roster (ps : List Player) (t : Nat) (h : t < ps.length) :
    nameAt ps t ∈ rosterNames ps := by
  unfold nameAt rosterNames
  refine List.mem_map.mpr ⟨nthPlayer ps t, ?_, rfl⟩
  have h1 := getElem?_eq_nthPlayer ps t h
  exact List.getElem?_mem h1

theorem loopOk_insert (ps : List Player) (acc : List NightEntry) (k : String)
    (v : Nat × Option Nat) (hacc : ∀ ent ∈ acc, LoopEntryOk ps ent)
    (hk : LoopEntryOk ps (k, v)) :
    ∀ ent ∈ dictInsert acc k v, LoopEntryOk ps ent := by
  intro ent hent
  rcases dictInsert_sub acc k v ent hent with h | h
  · exact hacc ent h
  · rw [h]; exact hk

theorem entryOk_insert (ps : List Player) (acc : List NightEntry) (k : String)
    (v : Nat × Option Nat) (hacc : ∀ ent ∈ acc, EntryOk ps ent)
    (hk : EntryOk ps (k, v)) :
    ∀ ent ∈ dictInsert acc k v, EntryOk ps ent := by
  intro ent hent
  rcases dictInsert_sub acc k v ent hent with h | h
  · exact hacc ent h
  · rw [h]; exact hk

theorem collectStep_loopOk (ps : List Player) (ch : Choices) (acc : NightAcc)
    (i : Nat) (hi : i ∈ aliveIdxList ps)
    (hch : targetChoiceOk ps (ch.target i) = true)
    (hacc : ∀ ent ∈ acc.actions, LoopEntryOk ps ent) :
    ∀ ent ∈ (collectStep ps ch acc i).actions, LoopEntryOk ps ent := by
  have hilt : i < ps.length := mem_aliveIdx_lt ps i hi
  have htgt : ∀ t, ch.target i = some t → t < ps.length := by
    intro t ht
    unfold targetChoiceOk at hch
    rw [ht] at hch
    exact mem_aliveIdx_lt ps t (of_decide_eq_true hch)
  unfold collectStep
  by_cases h0 : (nthPlayer ps i).role = none
  · rw [if_pos h0]
    exact hacc
  · rw [if_neg h0]
    by_cases h1 : playerRoleName (nthPlayer ps i) = "Jailor"
    · rw [if_pos h1]
      exact loopOk_insert ps acc.actions _ _ hacc
        ⟨hilt, htgt, by intro hc; simp [entKey] at hc⟩
    · rw [if_neg h1]
      by_cases h2 : playerRoleName (nthPlayer ps i) = "Escort"
      · rw [if_pos h2]
        cases ht : ch.target i with
        | none => exact hacc
        | some t =>
          show ∀ ent ∈ dictInsert acc.actions "roleblock" (i, some t), LoopEntryOk ps ent
          refine loopOk_insert ps acc.actions _ _ hacc
            ⟨hilt, ?_, by intro hc; simp [entKey] at hc⟩
          intro t' ht'
          injection ht' with ht'
          rw [← ht']
          exact htgt t ht
      · rw [if_neg h2]
        by_cases h3 : playerRoleName (nthPlayer ps i) = "Doctor"
        · rw [if_pos h3]
          exact loopOk_insert ps acc.actions _ _ hacc
            ⟨hilt, htgt, by intro hc; simp [entKey] at hc⟩
        · rw [if_neg h3]
          by_cases h4 : playerRoleName (nthPlayer ps i) = "Lookout"
          · rw [if_pos h4]
            exact loopOk_insert ps acc.actions _ _ hacc
              ⟨hilt, htgt, by intro hc; simp [entKey] at hc⟩
          · rw [if_neg h4]
            by_cases h5 : playerRoleName (nthPlayer ps i) = "Sheriff"
            · rw [if_pos h5]
              exact loopOk_insert ps acc.actions _ _ hacc
                ⟨hilt, htgt, strApp_ne "sheriff-" (nameAt ps i) "mafia_kill" (by decide)⟩
            · rw [if_neg h5]
              by_cases h6 : playerRoleName (nthPlayer ps i) = "Investigator"
              · rw [if_pos h6]
                exact loopOk_insert ps acc.actions _ _ hacc
                  ⟨hilt, htgt,
                    strApp_ne "investigator-" (nameAt ps i) "mafia_kill" (by decide)⟩
              · rw [if_neg h6]
                by_cases h7 : playerRoleName (nthPlayer ps i) = "Consigliere"
                · rw [if_pos h7]
                  exact loopOk_insert ps acc.actions _ _ hacc
                    ⟨hilt, htgt,
                      strApp_ne "consigliere-" (nameAt ps i) "mafia_kill" (by decide)⟩
                · rw [if_neg h7]
                  exact hacc

theorem foldCollect_loopOk (ps : List Player) (ch : Choices) (idxs : List Nat)
    (acc : NightAcc) (hidxs : ∀ j ∈ idxs, j ∈ aliveIdxList ps)
    (hch : ∀ i ∈ aliveIdxList ps, targetChoiceOk ps (ch.target i) = true)
    (hacc : ∀ ent ∈ acc.actions, LoopEntryOk ps ent) :
    ∀ ent ∈ (idxs.foldl (collectStep ps ch) acc).actions, LoopEntryOk ps ent := by
  induction idxs generalizing acc with
  | nil => exact hacc
  | cons j rest ih =>
    simp only [List.foldl_cons]
    have hj := hidxs j (List.mem_cons_self j rest)
    exact ih (collectStep ps ch acc j)
      (fun x hx => hidxs x (List.mem_cons_of_mem j hx))
      (collectStep_loopOk ps ch acc j hj (hch j hj) hacc)

theorem loopActions_loopOk (ps : List Player) (ch : Choices)
    (hch : ∀ i ∈ aliveIdxList ps, targetChoiceOk ps (ch.target i) = true) :
    ∀ ent ∈ (loopActions ps ch).actions, LoopEntryOk ps ent := by
  unfold loopActions
  exact foldCollect_loopOk ps ch (aliveIdxList ps) {} (fun _ hx => hx) hch
    (by intro ent hent; simp at hent)

theorem mafiaPhase_ok (ps : List Player) (cleans : Nat) (ch : Choices)
    (acc : NightAcc) (hacc : ∀ ent ∈ acc.actions, LoopEntryOk ps ent)
    (hmt : aliveByFactionIdx ps "Mafia" ≠ [] → mafiaTargetsList ps ≠ [] →
      ch.mafiaTarget ∈ mafiaTargetsList ps) :
    ∀ ent ∈ (mafiaPhase ps cleans ch acc).1.actions, EntryOk ps ent := by
  unfold mafiaPhase
  by_cases hne : aliveByFactionIdx ps "Mafia" ≠ [] ∧ mafiaTargetsList ps ≠ []
  · rw [if_pos hne]
    have hmem : ch.mafiaTarget ∈ mafiaTargetsList ps := hmt hne.1 hne.2
    have hm0 : mafiaHead ps < ps.length := by
      unfold mafiaHead
      apply mem_aliveByFaction_lt ps "Mafia"
      cases hl : aliveByFactionIdx ps "Mafia" with
      | nil => exact absurd hl hne.1
      | cons a rest => simp
    have hbase : ∀ ent ∈ acc.actions, EntryOk ps ent :=
      fun ent hent => loopEntryOk_entryOk ps ent (hacc ent hent)
    have hkill : EntryOk ps ("mafia_kill", mafiaHead ps, some ch.mafiaTarget) := by
      refine ⟨hm0, ?_, ?_⟩
      · intro t' ht'
        injection ht' with ht'
        rw [← ht']
        exact mem_mafiaTargets_lt ps _ hmem
      · intro _ t' ht'
        injection ht' with ht'
        rw [← ht']
        exact hmem
    have hlvl1 : ∀ ent ∈ dictInsert acc.actions "mafia_kill"
        (mafiaHead ps, some ch.mafiaTarget),
        EntryOk ps ent :=
      entryOk_insert ps acc.actions _ _ hbase hkill
    by_cases hj : ((aliveByFactionIdx ps "Mafia").any
        (fun i => playerRoleName (nthPlayer ps i) == "Janitor")) = true
    · rw [if_pos hj]
      by_cases hc : 0 < cleans
      · rw [if_pos hc]
        refine entryOk_insert ps _ _ _ hlvl1 ⟨hm0, ?_, by intro hk; simp [entKey] at hk⟩
        intro t' ht'
        injection ht' with ht'
        rw [← ht']
        exact mem_mafiaTargets_lt ps _ hmem
      · rw [if_neg hc]
        exact hlvl1
    · rw [if_neg hj]
      exact hlvl1
  · rw [if_neg hne]
    intro ent hent
    exact loopEntryOk_entryOk ps ent (hacc ent hent)

theorem addJailedRoleblock_actions (ps : List Player) (acc : NightAcc) :
    (addJailedRoleblock ps acc).actions = acc.actions := by
  unfold addJailedRoleblock
  cases acc.jailed <;> rfl

theorem validateNight_ok (ps : List Player) (acts : List NightEntry)
    (hok : ∀ ent ∈ acts, EntryOk ps ent) : validateNight ps acts = none := by
  induction acts with
  | nil => rfl
  | cons ent rest ih =>
    rw [validateNight_cons]
    have h := hok ent (List.mem_cons_self ent rest)
    have hent : validateEntry ps ent = none := by
      unfold validateEntry
      rw [if_neg ?hc1, if_neg ?hc2, if_neg ?hc3]
      case hc1 =>
        rintro ⟨hkk, hb⟩
        cases ho : entTarget ent with
        | none =>
          unfold targetFactionIsMafia at hb
          rw [ho] at hb
          simp at hb
        | some t =>
          unfold targetFactionIsMafia at hb
          rw [ho] at hb
          have hfac : factionAt ps t = "Mafia" := by simpa using hb
          exact mem_mafiaTargets_faction ps t (h.2.2 hkk t ho) hfac
      case hc2 =>
        intro hb
        cases ho : entTarget ent with
        | none =>
          unfold targetNotInRoster at hb
          rw [ho] at hb
          simp at hb
        | some t =>
          unfold targetNotInRoster at hb
          rw [ho] at hb
          simp only [Bool.not_eq_true'] at hb
          have : nameAt ps t ∈ rosterNames ps := name_mem_roster ps t (h.2.1 t ho)
          simp [this] at hb
      case hc3 =>
        intro hb
        exact hb (name_mem_roster ps (entActor ent) h.1)
    rw [hent]
    exact ih (fun x hx => hok x (List.mem_cons_of_mem ent hx))

theorem validateEntry_congr (ps qs : List Player) (ent : NightEntry)
    (h : NamesRoles ps qs) : validateEntry qs ent = validateEntry ps ent := by
  have hname : ∀ i, nameAt qs i = nameAt ps i := fun i => (h.2 i).1
  have hfac : ∀ i, factionAt qs i = factionAt ps i := by
    intro i
    unfold factionAt playerFaction
    rw [(h.2 i).2]
  have hrost : rosterNames qs = rosterNames ps := rosterNames_congr ps qs h
  have h1 : targetFactionIsMafia qs (entTarget ent) =
      targetFactionIsMafia ps (entTarget ent) := by
    unfold targetFactionIsMafia
    cases entTarget ent with
    | none => rfl
    | some t =>
      show (factionAt qs t == "Mafia") = (factionAt ps t == "Mafia")
      rw [hfac t]
  have h2 : targetNotInRoster qs (entTarget ent) =
      targetNotInRoster ps (entTarget ent) := by
    unfold targetNotInRoster
    cases entTarget ent with
    | none => rfl
    | some t =>
      show (!(decide (nameAt qs t ∈ rosterNames qs))) =
        (!(decide (nameAt ps t ∈ rosterNames ps)))
      rw [hname t, hrost]
  unfold validateEntry
  rw [h1, h2, hname (entActor ent), hrost]

theorem validateNight_congr (ps qs : List Player) (acts : List NightEntry)
    (h : NamesRoles ps qs) : validateNight qs acts = validateNight ps acts := by
  induction acts with
  | nil => rfl
  | cons ent rest ih =>
    rw [validateNight_cons, validateNight_cons, validateEntry_congr ps qs ent h, ih]

theorem namesRoles_night (e : Engine) (ch : Choices) :
    NamesRoles e.state.players (runNightFull e ch).engine.state.players := by
  rw [runNightFull_players]
  refine namesRoles_trans _ _ _ (namesRoles_trans _ _ _
    (namesRoles_applyClean e.state.players (runNightFull e ch).acts
      (runNightFull e ch).deaths)
    (namesRoles_applyDeaths _ (runNightFull e ch).deaths)) ?_
  exact CorePlus.namesRoles _ _ (corePlus_resolveInvestigations (runNightFull e ch).acts _)

theorem night_acts_entryOk (e : Engine) (ch : Choices)
    (hv : ChoicesValid e.state.players ch) :
    ∀ ent ∈ (runNightFull e ch).acts, EntryOk e.state.players ent := by
  have hacts : (runNightFull e ch).acts =
      (addJailedRoleblock e.state.players
        (mafiaPhase e.state.players e.janitor_cleans ch
          (loopActions e.state.players ch)).1).actions := rfl
  rw [hacts, addJailedRoleblock_actions]
  exact mafiaPhase_ok e.state.players e.janitor_cleans ch
    (loopActions e.state.players ch)
    (loopActions_loopOk e.state.players ch hv.1) hv.2

theorem night_err_none (e : Engine) (ch : Choices)
    (hv : ChoicesValid e.state.players ch) : (runNightFull e ch).err = none := by
  have herr : (runNightFull e ch).err =
      validateNight (runNightFull e ch).engine.state.players (runNightFull e ch).acts :=
    rfl
  rw [herr,
    validateNight_congr e.state.players (runNightFull e ch).engine.state.players
      (runNightFull e ch).acts (namesRoles_night e ch)]
  exact validateNight_ok e.state.players (runNightFull e ch).acts
    (night_acts_entryOk e ch hv)

/-- C9: every execution of night resolution returns without a validation
error and increments the day counter by exactly 1 — nights with no deaths or
no eligible kill target included.  There are no validation-raising nights to
except: on the engine's own action tables (any state with roles assigned,
any policy-conformant random draws) the validation stage never raises, so
the increment after the validation stage always runs. -/
theorem night_day_increments (e : Engine) (ch : Choices)
    (hr : AllRolesAssigned e.state.players)
    (hv : ChoicesValid e.state.players ch) :
    (runNightFull e ch).err = none ∧
    (runNightFull e ch).engine.state.day = e.state.day + 1 := by
  have herr := night_err_none e ch hv
  refine ⟨herr, ?_⟩
  have hday : (runNightFull e ch).engine.state.day =
      if (runNightFull e ch).err = none then e.state.day + 1 else e.state.day := rfl
  rw [hday, if_pos herr]

/-- Concrete engine for the day-increment witness. -/
def wC9Engine : Engine :=
  { state := { players := [mkRolePlayer "Jay" jailorRole,
      mkRolePlayer "Sam" sheriffRole, mkRolePlayer "Mia" mafiosoRole,
      mkRolePlayer "Tom" townieRole] } }

/-- Choices for the day-increment witness. -/
def wC9Choices : Choices :=
  { target := fun i => if i = 0 then some 1 else if i = 1 then some 2 else none,
    mafiaTarget := 3 }

/-- Witness for the day-increment claim at a concrete night. -/
theorem night_day_increments_w :
    (runNightFull wC9Engine wC9Choices).err = none ∧
    (runNightFull wC9Engine wC9Choices).engine.state.day = wC9Engine.state.day + 1 :=
  night_day_increments wC9Engine wC9Choices (by decide) (by decide)

/-- C10: on every action table produced internally by night resolution (any
state with assigned roles, any policy-conformant draws) the validation stage
never raises: the kill target is drawn from the living non-Mafia pool, so
the IllegalMoveError branch is unreachable, and every actor and target name
lies in the roster, so the RosterConsistencyError branches are unreachable. -/
theorem night_validation_internally_safe (e : Engine) (ch : Choices)
    (hr : AllRolesAssigned e.state.players)
    (hv : ChoicesValid e.state.players ch) :
    (runNightFull e ch).err = none ∧
    (∀ a t, dictGet (runNightFull e ch).acts "mafia_kill" = some (a, some t) →
      t ∈ mafiaTargetsList e.state.players ∧
      ¬ factionAt e.state.players t = "Mafia") ∧
    (∀ ent ∈ (runNightFull e ch).acts,
      nameAt e.state.players (entActor ent) ∈ rosterNames e.state.players ∧
      ∀ t, entTarget ent = some t →
        nameAt e.state.players t ∈ rosterNames e.state.players) := by
  have hok := night_acts_entryOk e ch hv
  refine ⟨night_err_none e ch hv, ?_, ?_⟩
  · intro a t hget
    have hmem := dictGet_mem _ _ _ hget
    have h := hok _ hmem
    have hmt : t ∈ mafiaTargetsList e.state.players := h.2.2 rfl t rfl
    exact ⟨hmt, mem_mafiaTargets_faction _ _ hmt⟩
  · intro ent hment
    have h := hok ent hment
    exact ⟨name_mem_roster _ _ h.1, fun t ht => name_mem_roster _ _ (h.2.1 t ht)⟩

/-- Concrete engine for the validation-safety witness. -/
def wC10Engine : Engine :=
  { state := { players := [mkRolePlayer "Doc" doctorRole,
      mkRolePlayer "Eve" escortRole, mkRolePlayer "Greg" godfatherRole,
      mkRolePlayer "Jan" janitorRole, mkRolePlayer "Tom" townieRole] } }

/-- Choices for the validation-safety witness. -/
def wC10Choices : Choices :=
  { target := fun i => if i = 0 then some 4 else if i = 1 then some 2 else none,
    mafiaTarget := 4 }

/-- Witness for the validation-safety claim at a concrete night. -/
theorem night_validation_internally_safe_w :
    (runNightFull wC10Engine wC10Choices).err = none ∧
    (∀ a t, dictGet (runNightFull wC10Engine wC10Choices).acts "mafia_kill"
        = some (a, some t) →
      t ∈ mafiaTargetsList wC10Engine.state.players ∧
      ¬ factionAt wC10Engine.state.players t = "Mafia") ∧
    (∀ ent ∈ (runNightFull wC10Engine wC10Choices).acts,
      nameAt wC10Engine.state.players (entActor ent) ∈ rosterNames wC10Engine.state.players ∧
      ∀ t, entTarget ent = some t →
        nameAt wC10Engine.state.players t ∈ rosterNames wC10Engine.state.players) :=
  night_validation_internally_safe wC10Engine wC10Choices (by decide) (by decide)

theorem get_eq_nthPlayer (ps : List Player) (i : Nat) (hi : i < ps.length) :
    ps.get ⟨i, hi⟩ = nthPlayer ps i := by
  have h1 := getElem?_eq_nthPlayer ps i hi
  rw [List.getElem?_eq_getElem hi] at h1
  simp only [Option.some.injEq] at h1
  simpa using h1

theorem names_nodup_ne (ps : List Player) (hnodup : (rosterNames ps).Nodup)
    (i j : Nat) (hi : i < ps.length) (hj : j < ps.length) (hne : i ≠ j) :
    nameAt ps i ≠ nameAt ps j := by
  intro hc
  have hlen : (rosterNames ps).length = ps.length := List.length_map ps Player.name
  have hinj := List.nodup_iff_injective_get.mp hnodup
  have hgi : (rosterNames ps).get ⟨i, by omega⟩ = nameAt ps i := by
    unfold rosterNames
    rw [List.get_map]
    unfold nameAt
    rw [get_eq_nthPlayer ps i hi]
  have hgj : (rosterNames ps).get ⟨j, by omega⟩ = nameAt ps j := by
    unfold rosterNames
    rw [List.get_map]
    unfold nameAt
    rw [get_eq_nthPlayer ps j hj]
  have : ((⟨i, by omega⟩ : Fin (rosterNames ps).length)) = ⟨j, by omega⟩ := by
    apply hinj
    rw [hgi, hgj, hc]
  exact hne (by simpa using this)

theorem aliveIdx_nodup (ps : List Player) : (aliveIdxList ps).Nodup :=
  (List.nodup_range ps.length).filter _

theorem investStep_sheriff_note (ps : List Player) (k : String) (i t : Nat)
    (hsher : strStartsWith k "sheriff" = true)
    (hrole : ¬ (nthPlayer ps i).role = none) (hi : i < ps.length) :
    sheriffNoteFor ps t ∈ (nthPlayer (investStep ps (k, i, some t)) i).notes := by
  have hexcl := startsWith_sheriff_excl k hsher
  unfold investStep
  rw [if_neg (by
    simp only [entTarget, entActor]
    intro hc
    rcases hc with hc | hc
    · simp at hc
    · exact hrole hc)]
  simp only [entTarget, entActor, entKey, Option.getD_some]
  have hmem1 : sheriffNoteFor ps t ∈ (nthPlayer (sheriffStep ps k i t) i).notes := by
    unfold sheriffStep
    rw [if_pos hsher]
    unfold appendNote
    rw [nthPlayer_modifyAt, if_pos ⟨rfl, hi⟩]
    simp
  have h2 := ((corePlus_investigatorStep (sheriffStep ps k i t) k i t).2 i).2.2.2.2
  have h3 := ((corePlus_consigliereStep
    (investigatorStep (sheriffStep ps k i t) k i t) k i t).2 i).2.2.2.2
  exact h3 _ (h2 _ hmem1)

theorem invest_note_mem (acts : List NightEntry) (ps : List Player) (k : String)
    (i t : Nat) (hmem : (k, i, some t) ∈ acts)
    (hsher : strStartsWith k "sheriff" = true)
    (hrole : ¬ (nthPlayer ps i).role = none) (hi : i < ps.length) :
    sheriffNoteFor ps t ∈ (nthPlayer (resolveInvestigations acts ps) i).notes := by
  induction acts generalizing ps with
  | nil => simp at hmem
  | cons ent rest ih =>
    have hru : resolveInvestigations (ent :: rest) ps =
        resolveInvestigations rest (investStep ps ent) := rfl
    rw [hru]
    rcases List.mem_cons.mp hmem with hent | hrest
    · have hstep : sheriffNoteFor ps t ∈ (nthPlayer (investStep ps ent) i).notes := by
        rw [← hent]
        exact investStep_sheriff_note ps k i t hsher hrole hi
      exact ((corePlus_resolveInvestigations rest (investStep ps ent)).2 i).2.2.2.2 _ hstep
    · have hcp := corePlus_investStep ps ent
      have hnote : sheriffNoteFor (investStep ps ent) t = sheriffNoteFor ps t := by
        unfold sheriffNoteFor
        have h1 : nameAt (investStep ps ent) t = nameAt ps t := (hcp.2 t).1
        have h2 : playerAlignment (nthPlayer (investStep ps ent) t) =
            playerAlignment (nthPlayer ps t) := by
          unfold playerAlignment
          rw [(hcp.2 t).2.1]
        rw [h1, h2]
      have hrole2 : ¬ (nthPlayer (investStep ps ent) i).role = none := by
        rw [(hcp.2 i).2.1]
        exact hrole
      have hi2 : i < (investStep ps ent).length := by
        rw [hcp.1]
        exact hi
      have hres := ih (investStep ps ent) hrest hrole2 hi2
      rw [hnote] at hres
      exact hres

theorem collectStep_preserves_sheriff_entry (ps : List Player) (ch : Choices)
    (acc : NightAcc) (j i t : Nat)
    (hmem : ("sheriff-" ++ nameAt ps i, i, some t) ∈ acc.actions)
    (hne : nameAt ps j ≠ nameAt ps i) :
    ("sheriff-" ++ nameAt ps i, i, some t) ∈ (collectStep ps ch acc j).actions := by
  have hjail : "jail" ≠ "sheriff-" ++ nameAt ps i :=
    (strApp_ne "sheriff-" (nameAt ps i) "jail" (by decide)).symm
  have hrb : "roleblock" ≠ "sheriff-" ++ nameAt ps i :=
    (strApp_ne "sheriff-" (nameAt ps i) "roleblock" (by decide)).symm
  have hheal : "heal" ≠ "sheriff-" ++ nameAt ps i :=
    (strApp_ne "sheriff-" (nameAt ps i) "heal" (by decide)).symm
  have hwatch : "watch" ≠ "sheriff-" ++ nameAt ps i :=
    (strApp_ne "sheriff-" (nameAt ps i) "watch" (by decide)).symm
  have hsher2 : "sheriff-" ++ nameAt ps j ≠ "sheriff-" ++ nameAt ps i := by
    intro hc
    exact hne (strApp_left_cancel "sheriff-" _ _ hc)
  have hinv : "investigator-" ++ nameAt ps j ≠ "sheriff-" ++ nameAt ps i :=
    strApp_head_ne "investigator-" "sheriff-" _ _ 'i' 's' rfl rfl (by decide)
  have hcon : "consigliere-" ++ nameAt ps j ≠ "sheriff-" ++ nameAt ps i :=
    strApp_head_ne "consigliere-" "sheriff-" _ _ 'c' 's' rfl rfl (by decide)
  unfold collectStep
  by_cases h0 : (nthPlayer ps j).role = none
  · rw [if_pos h0]; exact hmem
  · rw [if_neg h0]
    by_cases h1 : playerRoleName (nthPlayer ps j) = "Jailor"
    · rw [if_pos h1]
      exact dictInsert_mem_of_ne _ _ _ _ _ hjail hmem
    · rw [if_neg h1]
      by_cases h2 : playerRoleName (nthPlayer ps j) = "Escort"
      · rw [if_pos h2]
        cases ht : ch.target j with
        | none => exact hmem
        | some u =>
          show _ ∈ dictInsert acc.actions "roleblock" (j, some u)
          exact dictInsert_mem_of_ne _ _ _ _ _ hrb hmem
      · rw [if_neg h2]
        by_cases h3 : playerRoleName (nthPlayer ps j) = "Doctor"
        · rw [if_pos h3]
          exact dictInsert_mem_of_ne _ _ _ _ _ hheal hmem
        · rw [if_neg h3]
          by_cases h4 : playerRoleName (nthPlayer ps j) = "Lookout"
          · rw [if_pos h4]
            exact dictInsert_mem_of_ne _ _ _ _ _ hwatch hmem
          · rw [if_neg h4]
            by_cases h5 : playerRoleName (nthPlayer ps j) = "Sheriff"
            · rw [if_pos h5]
              exact dictInsert_mem_of_ne _ _ _ _ _ hsher2 hmem
            · rw [if_neg h5]
              by_cases h6 : playerRoleName (nthPlayer ps j) = "Investigator"
              · rw [if_pos h6]
                exact dictInsert_mem_of_ne _ _ _ _ _ hinv hmem
              · rw [if_neg h6]
                by_cases h7 : playerRoleName (nthPlayer ps j) = "Consigliere"
                · rw [if_pos h7]
                  exact dictInsert_mem_of_ne _ _ _ _ _ hcon hmem
                · rw [if_neg h7]
                  exact hmem

theorem foldCollect_preserves_sheriff_entry (ps : List Player) (ch : Choices)
    (idxs : List Nat) (acc : NightAcc) (i t : Nat)
    (hmem : ("sheriff-" ++ nameAt ps i, i, some t) ∈ acc.actions)
    (hne : ∀ j ∈ idxs, nameAt ps j ≠ nameAt ps i) :
    ("sheriff-" ++ nameAt ps i, i, some t) ∈
      (idxs.foldl (collectStep ps ch) acc).actions := by
  induction idxs generalizing acc with
  | nil => exact hmem
  | cons j rest ih =>
    simp only [List.foldl_cons]
    exact ih (collectStep ps ch acc j)
      (collectStep_preserves_sheriff_entry ps ch acc j i t hmem
        (hne j (List.mem_cons_self j rest)))
      (fun x hx => hne x (List.mem_cons_of_mem j hx))

theorem collectStep_sheriff_inserts (ps : List Player) (ch : Choices)
    (acc : NightAcc) (i t : Nat)
    (hrname : playerRoleName (nthPlayer ps i) = "Sheriff")
    (hrole : ¬ (nthPlayer ps i).role = none)
    (ht : ch.target i = some t) :
    ("sheriff-" ++ nameAt ps i, i, some t) ∈ (collectStep ps ch acc i).actions := by
  unfold collectStep
  rw [if_neg hrole, if_neg (by rw [hrname]; decide), if_neg (by rw [hrname]; decide),
    if_neg (by rw [hrname]; decide), if_neg (by rw [hrname]; decide), if_pos hrname, ht]
  exact dictInsert_mem_self acc.actions _ (i, some t)

theorem sheriff_entry_in_loop (ps : List Player) (ch : Choices) (i t : Nat)
    (hi : i ∈ aliveIdxList ps)
    (hrname : playerRoleName (nthPlayer ps i) = "Sheriff")
    (hrole : ¬ (nthPlayer ps i).role = none)
    (ht : ch.target i = some t)
    (hnodup : (rosterNames ps).Nodup) :
    ("sheriff-" ++ nameAt ps i, i, some t) ∈ (loopActions ps ch).actions := by
  obtain ⟨l1, l2, hsplit⟩ := List.append_of_mem hi
  have hilt : i < ps.length := mem_aliveIdx_lt ps i hi
  have hnd : (l1 ++ i :: l2).Nodup := by
    rw [← hsplit]
    exact aliveIdx_nodup ps
  have hnd2 : (i :: l2).Nodup := hnd.of_append_right
  have hinotin : i ∉ l2 := (List.nodup_cons.mp hnd2).1
  unfold loopActions
  rw [hsplit, List.foldl_append]
  simp only [List.foldl_cons]
  apply foldCollect_preserves_sheriff_entry
  · exact collectStep_sheriff_inserts ps ch _ i t hrname hrole ht
  · intro j hj
    have hjmem : j ∈ aliveIdxList ps := by
      rw [hsplit]
      exact List.mem_append_right l1 (List.mem_cons_of_mem i hj)
    have hjlt : j < ps.length := mem_aliveIdx_lt ps j hjmem
    have hjne : j ≠ i := fun hc => hinotin (hc ▸ hj)
    exact names_nodup_ne ps hnodup j i hjlt hilt hjne

theorem mafiaPhase_preserves_entry (ps : List Player) (cleans : Nat)
    (ch : Choices) (acc : NightAcc) (k : String) (v : Nat × Option Nat)
    (hmem : (k, v) ∈ acc.actions)
    (h1 : "mafia_kill" ≠ k) (h2 : "janitor_clean" ≠ k) :
    (k, v) ∈ (mafiaPhase ps cleans ch acc).1.actions := by
  unfold mafiaPhase
  by_cases hne : aliveByFactionIdx ps "Mafia" ≠ [] ∧ mafiaTargetsList ps ≠ []
  · rw [if_pos hne]
    by_cases hj : ((aliveByFactionIdx ps "Mafia").any
        (fun i => playerRoleName (nthPlayer ps i) == "Janitor")) = true
    · rw [if_pos hj]
      by_cases hc : 0 < cleans
      · rw [if_pos hc]
        exact dictInsert_mem_of_ne _ _ _ _ _ h2
          (dictInsert_mem_of_ne _ _ _ _ _ h1 hmem)
      · rw [if_neg hc]
        exact dictInsert_mem_of_ne _ _ _ _ _ h1 hmem
    · rw [if_neg hj]
      exact dictInsert_mem_of_ne _ _ _ _ _ h1 hmem
  · rw [if_neg hne]
    exact hmem

/-- Concrete engine for the jailed-Sheriff counterexample: a Jailor, a
Sheriff, a Mafioso and a Townie. -/
def cexC4Engine : Engine :=
  { state := { players := [mkRolePlayer "Jay" jailorRole,
      mkRolePlayer "Sam" sheriffRole, mkRolePlayer "Mia" mafiosoRole,
      mkRolePlayer "Tom" townieRole] } }

/-- Choices for the jailed-Sheriff counterexample: the Jailor jails the
Sheriff; the jailed Sheriff investigates the Mafioso; the Mafia kill picks
the Townie. -/
def cexC4Choices : Choices :=
  { target := fun i => if i = 0 then some 1 else if i = 1 then some 2 else none,
    mafiaTarget := 3 }

/-- C4 counterexample: the Sheriff at index 1 is the jailed player this
night, started with an empty knowledge log, and still ends the night with
the sheriff result note appended — being jailed does not suppress the jailed
player's own ability.  The choices are policy-reachable (`ChoicesValid`). -/
theorem jailedSheriff_notes_cex :
    (runNightFull cexC4Engine cexC4Choices).jailed = some 1 ∧
    playerRoleName (nthPlayer cexC4Engine.state.players 1) = "Sheriff" ∧
    (nthPlayer cexC4Engine.state.players 1).notes = [] ∧
    (nthPlayer (runNightFull cexC4Engine cexC4Choices).engine.state.players 1).notes
      = ["Sheriff result on Mia: suspicious."] ∧
    ChoicesValid cexC4Engine.state.players cexC4Choices := by decide

/-- C4 amended: being jailed does not replace the jailed player's action.
The action-collection loop records every living player's action without ever
consulting the jailed or roleblocked state, so an alive Sheriff with a
chosen target always has the sheriff result note appended that night — in
particular when the Sheriff is the jailed player, as in the witness night. -/
theorem sheriff_note_fires_even_jailed (e : Engine) (ch : Choices) (i t : Nat)
    (hi : i ∈ aliveIdxList e.state.players)
    (hrname : playerRoleName (nthPlayer e.state.players i) = "Sheriff")
    (ht : ch.target i = some t)
    (hnodup : (rosterNames e.state.players).Nodup) :
    sheriffNoteFor e.state.players t ∈
      (nthPlayer (runNightFull e ch).engine.state.players i).notes := by
  have hrole : ¬ (nthPlayer e.state.players i).role = none := by
    intro hc
    have hrn : playerRoleName (nthPlayer e.state.players i) = "" := by
      unfold playerRoleName
      rw [hc]
    rw [hrn] at hrname
    exact absurd hrname (by decide)
  have hilt : i < e.state.players.length := mem_aliveIdx_lt _ i hi
  have hloop := sheriff_entry_in_loop e.state.players ch i t hi hrname hrole ht hnodup
  have hkey1 : "mafia_kill" ≠ "sheriff-" ++ nameAt e.state.players i :=
    (strApp_ne "sheriff-" _ "mafia_kill" (by decide)).symm
  have hkey2 : "janitor_clean" ≠ "sheriff-" ++ nameAt e.state.players i :=
    (strApp_ne "sheriff-" _ "janitor_clean" (by decide)).symm
  have hacts : ("sheriff-" ++ nameAt e.state.players i, i, some t) ∈
      (runNightFull e ch).acts := by
    have hid : (runNightFull e ch).acts =
        (addJailedRoleblock e.state.players
          (mafiaPhase e.state.players e.janitor_cleans ch
            (loopActions e.state.players ch)).1).actions := rfl
    rw [hid, addJailedRoleblock_actions]
    exact mafiaPhase_preserves_entry _ _ _ _ _ _ hloop hkey1 hkey2
  rw [runNightFull_players]
  have hnr : NamesRoles e.state.players
      (applyDeaths
        (applyClean e.state.players (runNightFull e ch).acts (runNightFull e ch).deaths)
        (runNightFull e ch).deaths) :=
    namesRoles_trans _ _ _
      (namesRoles_applyClean e.state.players _ _) (namesRoles_applyDeaths _ _)
  have hrole2 : ¬ (nthPlayer
      (applyDeaths
        (applyClean e.state.players (runNightFull e ch).acts (runNightFull e ch).deaths)
        (runNightFull e ch).deaths) i).role = none := by
    rw [(hnr.2 i).2]
    exact hrole
  have hi2 : i < (applyDeaths
      (applyClean e.state.players (runNightFull e ch).acts (runNightFull e ch).deaths)
      (runNightFull e ch).deaths).length := by
    rw [hnr.1]
    exact hilt
  have hres := invest_note_mem (runNightFull e ch).acts _
    ("sheriff-" ++ nameAt e.state.players i) i t hacts
    (strStartsWith_of_append "sheriff" "sheriff-" _ (by decide)) hrole2 hi2
  have hnoteeq : sheriffNoteFor
      (applyDeaths
        (applyClean e.state.players (runNightFull e ch).acts (runNightFull e ch).deaths)
        (runNightFull e ch).deaths) t = sheriffNoteFor e.state.players t := by
    unfold sheriffNoteFor nameAt
    have h1 := (hnr.2 t).1
    have h2 : playerAlignment (nthPlayer
        (applyDeaths
          (applyClean e.state.players (runNightFull e ch).acts (runNightFull e ch).deaths)
          (runNightFull e ch).deaths) t) =
        playerAlignment (nthPlayer e.state.players t) := by
      unfold playerAlignment
      rw [(hnr.2 t).2]
    rw [h1, h2]
  rw [hnoteeq] at hres
  exact hres

/-- Witness for the amended jailed-action claim: at the counterexample night
the jailed Sheriff (index 1) has its result note in its log afterwards. -/
theorem sheriff_note_fires_even_jailed_w :
    (runNightFull cexC4Engine cexC4Choices).jailed = some 1 ∧
    sheriffNoteFor cexC4Engine.state.players 2 ∈
      (nthPlayer (runNightFull cexC4Engine cexC4Choices).engine.state.players 1).notes :=
  ⟨by decide,
    sheriff_note_fires_even_jailed cexC4Engine cexC4Choices 1 2 (by decide) (by decide)
      (by decide) (by decide)⟩

theorem night_alive_charact (e : Engine) (ch : Choices) (i : Nat)
    (hi : i < e.state.players.length) :
    (nthPlayer (runNightFull e ch).engine.state.players i).alive =
      ((nthPlayer e.state.players i).alive &&
        !(decide (i ∈ (runNightFull e ch).deaths))) := by
  rw [runNightFull_players]
  rw [((corePlus_resolveInvestigations (runNightFull e ch).acts
    (applyDeaths
      (applyClean e.state.players (runNightFull e ch).acts (runNightFull e ch).deaths)
      (runNightFull e ch).deaths)).2 i).2.2.1]
  have hlen1 : i < (applyClean e.state.players (runNightFull e ch).acts
      (runNightFull e ch).deaths).length := by
    rw [(applyClean_fields e.state.players (runNightFull e ch).acts
      (runNightFull e ch).deaths).1]
    exact hi
  rw [applyDeaths_alive _ _ i hlen1]
  rw [((applyClean_fields e.state.players (runNightFull e ch).acts
    (runNightFull e ch).deaths).2 i).2.2.1]

theorem trial_alive_charact (ps : List Player) (i : Nat) (hi : i < ps.length) :
    (nthPlayer (trialAndLynch ps) i).alive =
      ((nthPlayer ps i).alive && !(decide (lynchSelect ps = some i))) := by
  unfold trialAndLynch
  cases hl : lynchSelect ps with
  | none =>
    show (nthPlayer ps i).alive =
      ((nthPlayer ps i).alive && !(decide ((none : Option Nat) = some i)))
    simp
  | some s =>
    show (nthPlayer (modifyAt ps s (fun p => { p with alive := false })) i).alive =
      ((nthPlayer ps i).alive && !(decide (some s = some i)))
    rw [nthPlayer_modifyAt]
    by_cases h : s = i
    · rw [if_pos ⟨h, hi⟩]
      simp [h]
    · rw [if_neg (fun hc => h hc.1)]
      simp [h]

theorem checkWin_players_charact (st : GameState) (i : Nat) :
    nthPlayer (checkWinConditions st).1.players i = nthPlayer st.players i := by
  unfold checkWinConditions
  by_cases h1 : (aliveByFactionIdx st.players "Mafia").isEmpty
  · rw [if_pos h1]
  · rw [if_neg h1]
    by_cases h2 : (aliveByFactionIdx st.players "Town").length ≤
        (aliveByFactionIdx st.players "Mafia").length
    · rw [if_pos h2]
    · rw [if_neg h2]

theorem runDay_alive_charact (e : Engine) (i : Nat)
    (hi : i < e.state.players.length) :
    (nthPlayer (runDay e).state.players i).alive =
      ((nthPlayer e.state.players i).alive &&
        !(decide (lynchSelect e.state.players = some i))) := by
  unfold runDay
  rw [checkWin_players_charact]
  show (nthPlayer (trialAndLynch e.state.players) i).alive = _
  exact trial_alive_charact e.state.players i hi

theorem assign_alive_charact (ps : List Player) (rs : List Role) (i : Nat) :
    (nthPlayer (assignRolesTo ps rs) i).alive = (nthPlayer ps i).alive := by
  induction ps generalizing rs i with
  | nil =>
    cases rs with
    | nil => rfl
    | cons r rs => rfl
  | cons p rest ih =>
    cases rs with
    | nil => rfl
    | cons r rs =>
      cases i with
      | zero => rfl
      | succ j =>
        show (nthPlayer (assignRolesTo rest rs) j).alive = (nthPlayer rest j).alive
        exact ih rs j

/-- C8: the only operations that touch any player's alive flag are the night
liveness update and the day trial, and each one only clears it: after a
night, a player is dead iff they were dead before or they are in that
night's resolved death list (Mafia kill or Jailor execution); after a day, a
player is dead iff they were dead before or the trial eliminated them; the
win evaluator and role assignment leave every player record's alive flag
untouched.  The Boolean `&&` form also gives monotonicity: a false flag can
never transition back to true. -/
theorem alive_flag_mutation_charact :
    (∀ (e : Engine) (ch : Choices) (i : Nat), i < e.state.players.length →
      (nthPlayer (runNightFull e ch).engine.state.players i).alive =
        ((nthPlayer e.state.players i).alive &&
          !(decide (i ∈ (runNightFull e ch).deaths)))) ∧
    (∀ (ps : List Player) (i : Nat), i < ps.length →
      (nthPlayer (trialAndLynch ps) i).alive =
        ((nthPlayer ps i).alive && !(decide (lynchSelect ps = some i)))) ∧
    (∀ (st : GameState) (i : Nat),
      nthPlayer (checkWinConditions st).1.players i = nthPlayer st.players i) ∧
    (∀ (e : Engine) (i : Nat), i < e.state.players.length →
      (nthPlayer (runDay e).state.players i).alive =
        ((nthPlayer e.state.players i).alive &&
          !(decide (lynchSelect e.state.players = some i)))) ∧
    (∀ (ps : List Player) (rs : List Role) (i : Nat),
      (nthPlayer (assignRolesTo ps rs) i).alive = (nthPlayer ps i).alive) :=
  ⟨night_alive_charact, trial_alive_charact, checkWin_players_charact,
    runDay_alive_charact, assign_alive_charact⟩

/-- Concrete engine for the alive-flag witness night. -/
def wC8Engine : Engine :=
  { state := { players := [mkRolePlayer "Greg" godfatherRole,
      mkRolePlayer "Tom" townieRole, mkRolePlayer "Ann" townieRole] } }

/-- Choices for the alive-flag witness night. -/
def wC8Choices : Choices := { target := fun _ => none, mafiaTarget := 1 }

/-- Concrete day roster for the alive-flag witness: two sheriffs suspect the
Mafioso. -/
def wC8DayPlayers : List Player :=
  [ { name := "P1", role := some sheriffRole,
      notes := ["Sheriff result on P3: suspicious."] },
    mkRolePlayer "P2" townieRole,
    mkRolePlayer "P3" mafiosoRole ]

/-- Concrete day engine for the alive-flag witness. -/
def wC8DayEngine : Engine := { state := { players := wC8DayPlayers } }

/-- Witness for the alive-flag claim at concrete inputs. -/
theorem alive_flag_mutation_charact_w :
    ((nthPlayer (runNightFull wC8Engine wC8Choices).engine.state.players 1).alive =
      ((nthPlayer wC8Engine.state.players 1).alive &&
        !(decide (1 ∈ (runNightFull wC8Engine wC8Choices).deaths)))) ∧
    ((nthPlayer (trialAndLynch wC8DayPlayers) 2).alive =
      ((nthPlayer wC8DayPlayers 2).alive &&
        !(decide (lynchSelect wC8DayPlayers = some 2)))) ∧
    (nthPlayer (checkWinConditions wC8DayEngine.state).1.players 0 =
      nthPlayer wC8DayEngine.state.players 0) ∧
    ((nthPlayer (runDay wC8DayEngine).state.players 2).alive =
      ((nthPlayer wC8DayEngine.state.players 2).alive &&
        !(decide (lynchSelect wC8DayEngine.state.players = some 2)))) ∧
    ((nthPlayer (assignRolesTo [defaultPlayer] [jailorRole]) 0).alive =
      (nthPlayer [defaultPlayer] 0).alive) :=
  ⟨alive_flag_mutation_charact.1 wC8Engine wC8Choices 1 (by decide),
    alive_flag_mutation_charact.2.1 wC8DayPlayers 2 (by decide),
    alive_flag_mutation_charact.2.2.1 wC8DayEngine.state 0,
    alive_flag_mutation_charact.2.2.2.1 wC8DayEngine 2 (by decide),
    alive_flag_mutation_charact.2.2.2.2 [defaultPlayer] [jailorRole] 0⟩
